import Mathlib

/-!
Verification of the documentation build-tooling repository:
`api-reference/scripts/strip-deprecated.js` (the Deprecation Filter) and
`api-reference/scripts/schema-to-mintlify.js` (the Schema Renderer).

The scripts operate on an in-memory document tree parsed from YAML
(nested scalars / sequences / string-keyed mappings with insertion
order).  We shallowly embed that tree as the inductive type `Doc`
below and translate each JavaScript function into a Lean function over
`Doc`, following the source line by line.  JavaScript-specific
behaviour (truthiness, `typeof`, first-match key lookup, in-place key
assignment order, sloppy-mode silent writes to primitives, and the
`TypeError` crashes reachable in the source) is modelled explicitly.

Modelling notes, fixed for the whole file:
* JS objects cannot carry duplicate keys; mappings are embedded as
  association lists, looked up first-match.  Theorems that need
  key-uniqueness take a `Doc.WF` hypothesis.
* Prototype-inherited properties (e.g. a lookup of `"toString"`) are
  not modelled: a key absent from a mapping reads as `undefined`.
* JS orders integer-like object keys first; the embedding keeps pure
  insertion order.  No claim in scope depends on that reordering.
* `undefined` is represented by `Option.none` at lookup boundaries;
  the YAML scalar `null` is the value `Doc.null`.
-/

/-- The document tree: scalars, ordered sequences, and ordered
string-keyed mappings, as produced by `yaml.parse`. -/
inductive Doc where
  | null : Doc
  | bool : Bool → Doc
  | num : Int → Doc
  | str : String → Doc
  | arr : List Doc → Doc
  | obj : List (String × Doc) → Doc

mutual

/-- Structural equality test on document trees. -/
def Doc.beq : Doc → Doc → Bool
  | .null, .null => true
  | .bool a, .bool b => a = b
  | .num a, .num b => a = b
  | .str a, .str b => a = b
  | .arr a, .arr b => Doc.beqList a b
  | .obj a, .obj b => Doc.beqPairs a b
  | _, _ => false

/-- Elementwise equality test on sequences of document trees. -/
def Doc.beqList : List Doc → List Doc → Bool
  | [], [] => true
  | v :: t, v' :: t' => Doc.beq v v' && Doc.beqList t t'
  | _, _ => false

/-- Pairwise equality test on mapping entries. -/
def Doc.beqPairs : List (String × Doc) → List (String × Doc) → Bool
  | [], [] => true
  | (k, v) :: t, (k', v') :: t' => k = k' && Doc.beq v v' && Doc.beqPairs t t'
  | _, _ => false

end

/-- Strong induction principle for `Doc` that hands the inductive
hypothesis to every member of a sequence and every value of a
mapping. -/
def Doc.inductionOn {P : Doc → Prop}
    (hnull : P .null)
    (hbool : ∀ b, P (.bool b))
    (hnum : ∀ n, P (.num n))
    (hstr : ∀ s, P (.str s))
    (harr : ∀ l, (∀ v ∈ l, P v) → P (.arr l))
    (hobj : ∀ ps, (∀ kv ∈ ps, P kv.2) → P (.obj ps)) :
    ∀ d, P d
  | .null => hnull
  | .bool b => hbool b
  | .num n => hnum n
  | .str s => hstr s
  | .arr l => harr l (fun v hv =>
      Doc.inductionOn hnull hbool hnum hstr harr hobj v)
  | .obj ps => hobj ps (fun kv hkv =>
      Doc.inductionOn hnull hbool hnum hstr harr hobj kv.2)
termination_by d => sizeOf d
decreasing_by
  · have := List.sizeOf_lt_of_mem hv
    simp only [Doc.arr.sizeOf_spec]
    omega
  · have h1 := List.sizeOf_lt_of_mem hkv
    have h2 : sizeOf kv.2 < sizeOf kv := by
      cases kv with
      | mk a b => simp only [Prod.mk.sizeOf_spec]; omega
    simp only [Doc.obj.sizeOf_spec]
    omega

theorem Doc.beqList_iff (l l' : List Doc)
    (ih : ∀ v ∈ l, ∀ b, Doc.beq v b = true ↔ v = b) :
    Doc.beqList l l' = true ↔ l = l' := by
  induction l generalizing l' with
  | nil => cases l' <;> simp [Doc.beqList]
  | cons v t iht =>
    cases l' with
    | nil => simp [Doc.beqList]
    | cons v' t' =>
      simp only [Doc.beqList, Bool.and_eq_true]
      rw [ih v (by simp) v',
        iht t' (fun x hx b => ih x (List.mem_cons_of_mem _ hx) b)]
      simp

theorem Doc.beqPairs_iff (ps ps' : List (String × Doc))
    (ih : ∀ kv ∈ ps, ∀ b, Doc.beq kv.2 b = true ↔ kv.2 = b) :
    Doc.beqPairs ps ps' = true ↔ ps = ps' := by
  induction ps generalizing ps' with
  | nil => cases ps' <;> simp [Doc.beqPairs]
  | cons kv t iht =>
    cases ps' with
    | nil => cases kv; simp [Doc.beqPairs]
    | cons kv' t' =>
      cases kv with
      | mk k v =>
        cases kv' with
        | mk k' v' =>
          simp only [Doc.beqPairs, Bool.and_eq_true, decide_eq_true_eq]
          rw [ih (k, v) (by simp) v',
            iht t' (fun x hx b => ih x (List.mem_cons_of_mem _ hx) b)]
          simp [List.cons.injEq, Prod.mk.injEq]

theorem Doc.beq_iff_eq : ∀ a b : Doc, Doc.beq a b = true ↔ a = b := by
  intro a
  induction a using Doc.inductionOn with
  | hnull => intro b; cases b <;> simp [Doc.beq]
  | hbool x => intro b; cases b <;> simp [Doc.beq]
  | hnum x => intro b; cases b <;> simp [Doc.beq]
  | hstr x => intro b; cases b <;> simp [Doc.beq]
  | harr l ih =>
    intro b
    cases b <;> try simp [Doc.beq]
    case arr l' => exact Doc.beqList_iff l l' ih
  | hobj ps ih =>
    intro b
    cases b <;> try simp [Doc.beq]
    case obj ps' => exact Doc.beqPairs_iff ps ps' ih

instance : DecidableEq Doc := fun a b =>
  decidable_of_iff (Doc.beq a b = true) (Doc.beq_iff_eq a b)

namespace Doc

/-- JS truthiness of a defined value: `null`, `false`, `0` and `""`
are falsy; every object (mappings and sequences) is truthy. -/
def truthy : Doc → Bool
  | .null => false
  | .bool b => b
  | .num n => n ≠ 0
  | .str s => s ≠ ""
  | .arr _ => true
  | .obj _ => true

/-- JS truthiness of a possibly-`undefined` value. -/
def truthyOpt : Option Doc → Bool
  | none => false
  | some v => v.truthy

/-- `typeof v === "object" && v`, i.e. a non-null mapping or
sequence. -/
def isObjLike : Doc → Bool
  | .arr _ => true
  | .obj _ => true
  | _ => false

/-- A mapping that is not a sequence: the guard
`v && typeof v === "object" && !Array.isArray(v)`. -/
def isMapping : Doc → Bool
  | .obj _ => true
  | _ => false

end Doc

/-- First-match association-list lookup on a mapping's entries. -/
def lookupKey : List (String × Doc) → String → Option Doc
  | [], _ => none
  | (k', v) :: t, k => if k' = k then some v else lookupKey t k

/-- `value[key]` / `value?.[key]` for the string keys the scripts
read: a mapping is looked up first-match; any other receiver reads as
`undefined`. -/
def Doc.jsGet : Doc → String → Option Doc
  | .obj ps, k => lookupKey ps k
  | _, _ => none

/-- Optional-chained lookup `v?.[key]` on a possibly-`undefined`
receiver. -/
def Doc.jsGetOpt : Option Doc → String → Option Doc
  | none, _ => none
  | some v, k => v.jsGet k

/-- Assignment `o[k] = v` on a mapping's entries: replaces the first
occurrence of `k` in place (JS keeps the key's position), otherwise
appends the new key at the end. -/
def setKey : List (String × Doc) → String → Doc → List (String × Doc)
  | [], k, v => [(k, v)]
  | (k', v') :: t, k, v =>
    if k' = k then (k, v) :: t else (k', v') :: setKey t k v

/-- The entries kept by `delete o.deprecated`. -/
def notDeprecatedKey (kv : String × Doc) : Bool := kv.1 ≠ "deprecated"

/-- `delete o.deprecated` as applied by the Filter: on a mapping,
removes the key `"deprecated"`; on any other value the source's
`typeof`/`in` guards make the delete unreachable, so the value is
returned unchanged. -/
def deleteDeprecated : Doc → Doc
  | .obj ps => .obj (ps.filter notDeprecatedKey)
  | v => v

/-- `Object.entries(v)` for the receivers the scripts reach: a mapping
gives its pairs in order, a sequence gives index/element pairs. -/
def jsEntries : Doc → List (String × Doc)
  | .obj ps => ps
  | .arr l => l.enum.map (fun ei => (toString ei.1, ei.2))
  | _ => []

/-- Key uniqueness of one entry list. -/
def nodupKeys : List (String × Doc) → Bool
  | [] => true
  | (k, _) :: t => (t.all (fun kv => kv.1 ≠ k)) && nodupKeys t

mutual

/-- Key uniqueness, recursively: the embedding of the fact that a JS
object cannot carry two identical keys.  Parsed documents always
satisfy this. -/
def Doc.WF : Doc → Bool
  | .arr l => Doc.WFList l
  | .obj ps => nodupKeys ps && Doc.WFPairs ps
  | _ => true

/-- `Doc.WF` on every member of a sequence. -/
def Doc.WFList : List Doc → Bool
  | [] => true
  | v :: t => v.WF && Doc.WFList t

/-- `Doc.WF` on every value of a mapping. -/
def Doc.WFPairs : List (String × Doc) → Bool
  | [] => true
  | kv :: t => kv.2.WF && Doc.WFPairs t

end

/-!
### strip-deprecated.js

Embedding of the Deprecation Filter.  Line references are to
`api-reference/scripts/strip-deprecated.js`.
-/

/-- JS regex `.` without the `/s` flag: any character except the four
line terminators. -/
def jsDot (c : Char) : Bool :=
  c ≠ '\n' && c ≠ '\r' && c ≠ ' ' && c ≠ ' '

/-- The literal part of the reference pattern. -/
def schemasRefPrefix : List Char := "#/components/schemas/".data

/-- Core of the anchored regex `^#\/components\/schemas\/(.+)$`: the
input must start with the literal prefix and the greedy `(.+)` must
consume the whole (non-empty) remainder, which therefore may not
contain a line terminator. -/
def schemaNameMatch (cs : List Char) : Option (List Char) :=
  if schemasRefPrefix.isPrefixOf cs then
    let rest := cs.drop schemasRefPrefix.length
    if rest ≠ [] ∧ rest.all jsDot then some rest else none
  else none

/-- `getSchemaNameFromRef(ref)` (strip-deprecated.js lines 32–36):
returns the captured schema name for a string matching the anchored
pattern, `null` (here `none`) for a non-string or non-matching
argument. -/
def getSchemaNameFromRef (ref : Option Doc) : Option String :=
  match ref with
  | some (.str s) => (schemaNameMatch s.data).map (fun cs => String.mk cs)
  | _ => none

/-- `isRefToDeprecatedSchema(val, deprecatedSchemaNames)`
(strip-deprecated.js lines 39–48): true when `val` is a non-array
object and either its `$ref`, or (for `type: "array"`) its
`items.$ref`, names a member of the deprecated-schema set.  The set
must be non-empty. -/
def isRefToDeprecatedSchema (val : Doc) (ns : List String) : Bool :=
  match val with
  | .obj ps =>
    if ns.isEmpty then false
    else
      (match getSchemaNameFromRef (lookupKey ps "$ref") with
       | some n => ns.contains n
       | none => false)
      ||
      (match lookupKey ps "type", lookupKey ps "items" with
       | some (.str t), some items =>
         t = "array" && items.isObjLike &&
           Doc.truthyOpt (items.jsGet "$ref") &&
           (match getSchemaNameFromRef (items.jsGet "$ref") with
            | some n => ns.contains n
            | none => false)
       | _, _ => false)
  | _ => false

/-- `buildDeprecatedSchemaNames(spec)` (strip-deprecated.js lines
51–59): the names under `components.schemas` whose schema object has
`deprecated === true`.  A non-object `schemas` yields the empty set;
`Object.entries` of an array yields index/element pairs. -/
def buildDeprecatedSchemaNames (spec : Doc) : List String :=
  match Doc.jsGetOpt (spec.jsGet "components") "schemas" with
  | some schemas =>
    if schemas.isObjLike then
      (jsEntries schemas).filterMap (fun kv =>
        if kv.2.isObjLike ∧ kv.2.jsGet "deprecated" = some (.bool true)
        then some kv.1 else none)
    else []
  | none => []

mutual

/-- `stripDeprecated(value, deprecatedSchemaNames)`
(strip-deprecated.js lines 61–88): scalars pass through, sequences map
elementwise, and mappings are rebuilt keeping only pairs that are
neither objects marked `deprecated: true` nor references to deprecated
schemas; every kept object value then has its own `deprecated` key
deleted. -/
def stripDeprecated : Doc → List String → Doc
  | .arr l, ns => .arr (stripList l ns)
  | .obj ps, ns => .obj (stripPairs ps ns)
  | v, _ => v

/-- Elementwise `stripDeprecated` over a sequence (`value.map(...)`). -/
def stripList : List Doc → List String → List Doc
  | [], _ => []
  | v :: t, ns => stripDeprecated v ns :: stripList t ns

/-- The `for (const key of Object.keys(value))` loop of
`stripDeprecated`, over a mapping's entries. -/
def stripPairs : List (String × Doc) → List String → List (String × Doc)
  | [], _ => []
  | (k, v) :: t, ns =>
    if v.isMapping ∧ v.jsGet "deprecated" = some (.bool true) then
      stripPairs t ns
    else if isRefToDeprecatedSchema v ns then
      stripPairs t ns
    else
      (k, deleteDeprecated (stripDeprecated v ns)) :: stripPairs t ns

end

/-- `OPERATION_METHODS` (strip-deprecated.js line 90). -/
def OPERATION_METHODS : List String :=
  ["get", "put", "post", "delete", "options", "head", "patch", "trace"]

/-- The `op['x-mint'].metadata` steps of `ensureWideMode`
(strip-deprecated.js lines 100–102) once `op['x-mint']` is the mapping
with entries `xps`.  A sequence-valued or truthy-scalar `metadata`
leaves the operation unchanged: in sloppy mode the write to a
primitive's property is silently ignored, and a property attached to
an array is lost again when the document is serialized. -/
def stampMetadata (op : List (String × Doc)) (xps : List (String × Doc)) :
    Option (List (String × Doc)) :=
  match lookupKey xps "metadata" with
  | some (.obj mps) =>
    some (setKey op "x-mint"
      (.obj (setKey xps "metadata" (.obj (setKey mps "mode" (.str "wide"))))))
  | some (.arr _) => some op
  | some v =>
    if v.truthy then some op
    else
      some (setKey op "x-mint"
        (.obj (setKey xps "metadata" (.obj [("mode", .str "wide")]))))
  | none =>
    some (setKey op "x-mint"
      (.obj (setKey xps "metadata" (.obj [("mode", .str "wide")]))))

/-- Stamping of one operation object (strip-deprecated.js lines
100–102).  `none` models the `TypeError` the source throws when a
pre-existing `x-mint` is a truthy scalar (reading `.metadata` of the
primitive gives `undefined`, and setting `mode` on `undefined`
throws).  An array-valued `x-mint` accepts the attached property in
JS, but the property is lost when the document is serialized, so the
operation is modelled as unchanged. -/
def stampOp (op : List (String × Doc)) : Option (List (String × Doc)) :=
  match lookupKey op "x-mint" with
  | some (.obj xps) => stampMetadata op xps
  | some (.arr _) => some op
  | some v =>
    if v.truthy then none
    else stampMetadata (setKey op "x-mint" (.obj [])) []
  | none => stampMetadata (setKey op "x-mint" (.obj [])) []

/-- One key of the inner `for (const key of Object.keys(pathItem))`
loop of `ensureWideMode` (strip-deprecated.js lines 96–103):
operation-named keys with object values are stamped; everything else
is untouched (a sequence-valued operation accepts the attached
properties in JS but they are lost on serialization). -/
def stampOpValue (k : String) (v : Doc) : Option Doc :=
  if OPERATION_METHODS.contains k then
    match v with
    | .obj ops => (stampOp ops).map Doc.obj
    | v' => some v'
  else some v

/-- The inner loop of `ensureWideMode` over a path item's entries. -/
def stampOpsInPathItem : List (String × Doc) → Option (List (String × Doc))
  | [] => some []
  | (k, v) :: t =>
    match stampOpValue k v with
    | none => none
    | some v' =>
      match stampOpsInPathItem t with
      | none => none
      | some t' => some ((k, v') :: t')

/-- One path item of `ensureWideMode` (strip-deprecated.js lines
95–103): non-object path items are skipped; sequences enter the loop
but their integer-string keys never name an operation. -/
def stampPathItem : Doc → Option Doc
  | .obj ps => (stampOpsInPathItem ps).map Doc.obj
  | v => some v

/-- `stampPathItem` over every value of the `paths` mapping
(`Object.values(spec.paths)`). -/
def stampPathValues : List (String × Doc) → Option (List (String × Doc))
  | [] => some []
  | (k, v) :: t =>
    match stampPathItem v with
    | none => none
    | some v' =>
      match stampPathValues t with
      | none => none
      | some t' => some ((k, v') :: t')

/-- `stampPathItem` over the elements of a sequence-valued `paths`. -/
def stampPathElems : List Doc → Option (List Doc)
  | [] => some []
  | v :: t =>
    match stampPathItem v with
    | none => none
    | some v' =>
      match stampPathElems t with
      | none => none
      | some t' => some (v' :: t')

/-- `ensureWideMode(spec)` (strip-deprecated.js lines 92–105).  The
source mutates `spec` in place; the model rebuilds the same document.
`none` models the `TypeError` on a `null` document (reading
`spec.paths` of `null`) or a truthy-scalar `x-mint` (see `stampOp`). -/
def ensureWideMode (spec : Doc) : Option Doc :=
  match spec with
  | .null => none
  | .obj ps =>
    match lookupKey ps "paths" with
    | some (.obj pls) =>
      (stampPathValues pls).map (fun pls' => .obj (setKey ps "paths" (.obj pls')))
    | some (.arr l) =>
      (stampPathElems l).map (fun l' => .obj (setKey ps "paths" (.arr l')))
    | _ => some (.obj ps)
  | v => some v

/-- The Filter as run by `main` (strip-deprecated.js lines 113–117):
deprecation stripping with the deprecated-schema set computed from the
input, followed by wide-mode stamping. -/
def filterDoc (spec : Doc) : Option Doc :=
  ensureWideMode (stripDeprecated spec (buildDeprecatedSchemaNames spec))

/-!
### schema-to-mintlify.js

Embedding of the Schema Renderer.  Line references are to
`api-reference/scripts/schema-to-mintlify.js`.  The renderer's
recursion is not bounded by the source (a cyclic schema would loop
forever), so every recursive function takes explicit fuel and returns
`none` when the fuel runs out or when the source would throw a
`TypeError`.
-/

/-- `list.join(sep)` over already-converted strings (kernel-friendly
replacement for `String.intercalate`). -/
def joinSep (sep : String) : List String → String
  | [] => ""
  | [s] => s
  | s :: t => s ++ sep ++ joinSep sep t

/-- Concatenation of a string list. -/
def concatAll : List String → String
  | [] => ""
  | s :: t => s ++ concatAll t

/-- `str.split("/")` on a character list. -/
def splitSlashChars : List Char → List (List Char)
  | [] => [[]]
  | c :: cs =>
    match splitSlashChars cs with
    | [] => [[]]
    | h :: t => if c = '/' then [] :: h :: t else (c :: h) :: t

/-- The value of a canonical decimal numeral, when the characters are
all digits and non-empty. -/
def decimalValue? (cs : List Char) : Option Nat :=
  if cs ≠ [] ∧ cs.all (fun c => c.isDigit) then
    some (cs.foldl (fun acc c => acc * 10 + (c.toNat - '0'.toNat)) 0)
  else none

/-- `a || b` on possibly-`undefined` values: the first operand if
truthy, otherwise the second. -/
def jsOr (a b : Option Doc) : Option Doc := if Doc.truthyOpt a then a else b

/-- `a ?? b` on possibly-`undefined` values: the first operand unless
it is `null`/`undefined`. -/
def jsNullish (a b : Option Doc) : Option Doc :=
  match a with
  | some v => if v = .null then b else some v
  | none => b

mutual

/-- `String(v)`: JS string conversion of the tree values that can
occur in the document. -/
def jsToString : Doc → String
  | .null => "null"
  | .bool b => if b then "true" else "false"
  | .num n => toString n
  | .str s => s
  | .arr l => joinSep "," (jsToStringElems l)
  | .obj _ => "[object Object]"

/-- `Array.prototype.join` element conversion: `null` (and
`undefined`) become the empty string, everything else `String(v)`. -/
def jsToStringElems : List Doc → List String
  | [] => []
  | .null :: t => "" :: jsToStringElems t
  | v :: t => jsToString v :: jsToStringElems t

end

/-- One hex digit, lowercase, as emitted by `JSON.stringify`. -/
def hexDigit (d : Nat) : Char :=
  if d < 10 then Char.ofNat ('0'.toNat + d) else Char.ofNat ('a'.toNat + d - 10)

/-- String-character escaping of `JSON.stringify`. -/
def jsonEscapeChar (c : Char) : String :=
  if c = '"' then "\\\""
  else if c = '\\' then "\\\\"
  else if c = '\n' then "\\n"
  else if c = '\r' then "\\r"
  else if c = '\t' then "\\t"
  else if c = '\x08' then "\\b"
  else if c = '\x0c' then "\\f"
  else if c.toNat < 32 then
    "\\u00" ++ String.mk [hexDigit (c.toNat / 16), hexDigit (c.toNat % 16)]
  else String.mk [c]

/-- The quoted, escaped JSON string literal for `s`. -/
def jsonQuote (s : String) : String :=
  "\"" ++ concatAll (s.data.map jsonEscapeChar) ++ "\""

mutual

/-- `JSON.stringify(v)` for document-tree values. -/
def jsonStringify : Doc → String
  | .null => "null"
  | .bool b => if b then "true" else "false"
  | .num n => toString n
  | .str s => jsonQuote s
  | .arr l => "[" ++ joinSep "," (jsonStringifyElems l) ++ "]"
  | .obj ps => "\x7b" ++ joinSep "," (jsonStringifyPairs ps) ++ "\x7d"

/-- `JSON.stringify` over sequence elements. -/
def jsonStringifyElems : List Doc → List String
  | [] => []
  | v :: t => jsonStringify v :: jsonStringifyElems t

/-- `JSON.stringify` over mapping entries. -/
def jsonStringifyPairs : List (String × Doc) → List String
  | [] => []
  | (k, v) :: t =>
    (jsonQuote k ++ ":" ++ jsonStringify v) :: jsonStringifyPairs t

end

/-- `${d}` for a possibly-`undefined` value: `JSON.stringify` result,
or the literal `"undefined"` when `JSON.stringify(undefined)` returns
`undefined` and is interpolated. -/
def stringifyTemplate : Option Doc → String
  | some v => jsonStringify v
  | none => "undefined"

/-- The JS `\s` whitespace class (the code points that can occur in
practice; the regex also covers a few exotic Unicode space code
points, which behave identically here). -/
def jsWhitespace (c : Char) : Bool :=
  let n := c.toNat
  (9 ≤ n ∧ n ≤ 13) ∨ n = 32 ∨ n = 160 ∨ n = 5760 ∨
    (8192 ≤ n ∧ n ≤ 8202) ∨ n = 8232 ∨ n = 8233 ∨ n = 8239 ∨
    n = 8287 ∨ n = 12288 ∨ n = 65279

/-- Scanner for `replace(/\s+/g, " ")`: the flag records whether the
previous character was part of a whitespace run already replaced. -/
def collapseWsGo : Bool → List Char → List Char
  | _, [] => []
  | prevWs, c :: cs =>
    if jsWhitespace c then
      if prevWs then collapseWsGo true cs else ' ' :: collapseWsGo true cs
    else c :: collapseWsGo false cs

/-- `replace(/\s+/g, " ")` on a character list. -/
def collapseWs (cs : List Char) : List Char := collapseWsGo false cs

/-- `trim()` after whitespace collapsing (only plain spaces remain at
the ends). -/
def trimSpaces (cs : List Char) : List Char :=
  ((cs.dropWhile (· = ' ')).reverse.dropWhile (· = ' ')).reverse

/-- `normalizeDescription(desc)` (schema-to-mintlify.js lines
120–123): `""` for `null`/`undefined`, otherwise `String(desc)` with
whitespace runs collapsed to single spaces and trimmed. -/
def normalizeDescription (desc : Option Doc) : String :=
  match desc with
  | none => ""
  | some .null => ""
  | some v => String.mk (trimSpaces (collapseWs (jsToString v).data))

/-- `typeAttr(typeStr)` (lines 126–128): the raw value returned by
`getTypeString`, emitted when truthy. -/
def typeAttr (typeStr : Doc) : String :=
  if typeStr.truthy then " type=\"" ++ jsToString typeStr ++ "\"" else ""

/-- `requiredAttr(required)` (lines 131–133). -/
def requiredAttr (required : Bool) : String :=
  if required then " required" else ""

/-- `current?.[p]` during reference resolution: mapping lookup, plus
the array/string behaviour of JS string-keyed indexing (canonical
numeric indices and `length`). -/
def jsIndex (cur : Doc) (p : String) : Option Doc :=
  match cur with
  | .obj ps => lookupKey ps p
  | .arr l =>
    if p = "length" then some (.num l.length)
    else match decimalValue? p.data with
      | some i => if toString i = p then l.get? i else none
      | none => none
  | .str s =>
    if p = "length" then some (.num s.length)
    else match decimalValue? p.data with
      | some i =>
        if toString i = p then (s.data.get? i).map (fun c => .str (String.mk [c]))
        else none
      | none => none
  | _ => none

/-- The `for (const p of parts)` walk of `resolveRef` (lines 46–50):
`none` is JS `undefined`. -/
def resolveRefGo : Doc → List String → Option Doc
  | cur, [] => some cur
  | cur, p :: ps =>
    match jsIndex cur p with
    | none => none
    | some v => resolveRefGo v ps

/-- `resolveRef(spec, ref)` (lines 43–52): follows a `#/`-prefixed
path through the tree; any non-string, non-`#/` or dangling reference
resolves to `null`. -/
def resolveRef (spec : Doc) (ref : Option Doc) : Doc :=
  match ref with
  | some (.str r) =>
    match r.data with
    | '#' :: '/' :: rest =>
      match resolveRefGo spec ((splitSlashChars rest).map String.mk) with
      | some v => v
      | none => .null
    | _ => .null
  | _ => .null

/-- Scan for the first match of the unanchored regex
`/#\/components\/schemas\/(.+)/` used by `getRefName`: at the leftmost
occurrence of the literal prefix followed by at least one non-line-
terminator character, the greedy `(.+)` captures the run of
non-line-terminator characters after the prefix. -/
def getRefNameScan : List Char → Option (List Char)
  | [] => none
  | c :: cs =>
    if schemasRefPrefix.isPrefixOf (c :: cs) then
      let cap := ((c :: cs).drop schemasRefPrefix.length).takeWhile jsDot
      if cap ≠ [] then some cap else getRefNameScan cs
    else getRefNameScan cs

/-- `getRefName(ref)` (schema-to-mintlify.js lines 54–58): the capture
of the unanchored pattern, or `null`. -/
def getRefName (ref : Option Doc) : Option String :=
  match ref with
  | some (.str s) => (getRefNameScan s.data).map String.mk
  | _ => none

/-- Object spread `{...v}`: a mapping's own entries; a sequence or
string contributes index-keyed entries; other primitives contribute
nothing. -/
def spreadPairs : Doc → List (String × Doc)
  | .obj ps => ps
  | .arr l => l.enum.map (fun ei => (toString ei.1, ei.2))
  | .str s => s.data.enum.map (fun ei => (toString ei.1, .str (String.mk [ei.2])))
  | _ => []

/-- `resolveSchema(spec, schema)` (lines 61–70): a falsy schema gives
`null`; a truthy `$ref` that resolves gives the spread of the resolved
value extended with `__refName`; otherwise the schema itself. -/
def resolveSchema (spec schema : Doc) : Doc :=
  if schema.truthy then
    if Doc.truthyOpt (schema.jsGet "$ref") then
      let resolved := resolveRef spec (schema.jsGet "$ref")
      if resolved.truthy then
        .obj (setKey (spreadPairs resolved) "__refName"
          (match getRefName (schema.jsGet "$ref") with
           | some n => .str n
           | none => .null))
      else schema
    else schema
  else .null

/-- The effective raw type (lines 75–77): for a type union, the first
entry different from the string `"null"`; otherwise the declared
`type` itself. -/
def rawTypeOf (schema : Doc) : Option Doc :=
  match schema.jsGet "type" with
  | some (.arr l) => (l.filter (fun t => t ≠ .str "null")).head?
  | t => t

/-- `" (<format>)"` when the given `format` value is truthy. -/
def formatSuffix (f : Option Doc) : String :=
  match f with
  | some v => if v.truthy then " (" ++ jsToString v ++ ")" else ""
  | none => ""

/-- The enum list rendering of `getTypeString` (lines 79–83): first
five values joined by `" | "`, with `" | ..."` when more exist. -/
def enumJoin (l : List Doc) : String :=
  joinSep " | " (jsToStringElems (l.take 5)) ++
    (if 5 < l.length then " | ..." else "")

/-- The non-enum branches of `getTypeString` (lines 85–116); total,
since only the enum branch can throw. -/
def getTypeStringCore (spec schema : Doc) (refName : Option Doc) : Doc :=
  let rawType := rawTypeOf schema
  let fallback : Doc :=
    if Doc.truthyOpt refName then refName.getD .null
    else
      match rawType with
      | some v => if v.truthy then v else .str "unknown"
      | none => .str "unknown"
  if rawType = some (.str "array") then
    let items :=
      match schema.jsGet "items" with
      | some v => if v.truthy then v else .obj []
      | none => .obj []
    let itemRefOpt :=
      if Doc.truthyOpt (items.jsGet "$ref") then getRefName (items.jsGet "$ref")
      else none
    let itemResolved :=
      if Doc.truthyOpt (items.jsGet "$ref") then resolveRef spec (items.jsGet "$ref")
      else items
    if itemResolved.jsGet "type" = some (.str "object") ∧
        Doc.truthyOpt (itemResolved.jsGet "properties") then
      .str "array of object"
    else
      let itemType :=
        match itemRefOpt with
        | some n => n
        | none =>
          match itemResolved.jsGet "type" with
          | some (.str t) => t
          | _ => "object"
      .str ("array of " ++ itemType ++ formatSuffix (itemResolved.jsGet "format"))
  else if rawType = some (.str "object") then .str "object"
  else
    match rawType with
    | some (.str t) =>
      if t = "string" ∨ t = "integer" ∨ t = "number" ∨ t = "boolean" then
        .str (t ++ formatSuffix (schema.jsGet "format"))
      else fallback
    | _ => fallback

/-- `getTypeString(spec, schema, refName)` (lines 73–117).  `none`
models the `TypeError` thrown on a truthy non-sequence `enum`
(`.slice`/`.join` is not a function there). -/
def getTypeString (spec schema : Doc) (refName : Option Doc) : Option Doc :=
  if ¬ schema.truthy then some (.str "unknown")
  else
    match schema.jsGet "enum" with
    | some e =>
      if e.truthy then
        match e with
        | .arr l => some (.str ("string (enum: " ++ enumJoin l ++ ")"))
        | _ => none
      else some (getTypeStringCore spec schema refName)
    | none => some (getTypeStringCore spec schema refName)

/-- `new Set(resolved.required || [])` (line 154): the member list of
the set (duplicates are irrelevant for membership).  A falsy
`required` gives the empty set; a string iterates into its
characters; a truthy non-iterable value throws (`none`). -/
def requiredListOf (req : Option Doc) : Option (List Doc) :=
  match req with
  | none => some []
  | some v =>
    if ¬ v.truthy then some []
    else
      match v with
      | .arr l => some l
      | .str s => some (s.data.map (fun c => .str (String.mk [c])))
      | _ => none

/-- `s.split("\n")` on a character list. -/
def splitNlChars : List Char → List (List Char)
  | [] => [[]]
  | c :: cs =>
    match splitNlChars cs with
    | [] => [[]]
    | h :: t => if c = '\n' then [] :: h :: t else (c :: h) :: t

/-- `s.split("\n")`. -/
def splitNl (s : String) : List String := (splitNlChars s.data).map String.mk

/-- `lines.join("\n")`. -/
def joinNl : List String → String
  | [] => ""
  | [s] => s
  | s :: t => s ++ "\n" ++ joinNl t

/-- `Object.keys(v).length` for a truthy receiver. -/
def jsKeysCount : Option Doc → Nat
  | some (.obj ps) => ps.length
  | some (.arr l) => l.length
  | some (.str s) => s.length
  | _ => 0

mutual

/-- `schemaToExpandableContent(spec, schema, schemaName, indent)`
(schema-to-mintlify.js lines 141–245): for an object schema with
properties, one block of lines per property in declaration order;
everything else renders to the empty string.  (The source also
computes an unused `isArray` flag, line 146, and an unused
`innerTypeName`, lines 201–202; both are dead code and not modelled.)
Fuel (`none` on exhaustion) bounds the recursion the source leaves
unbounded. -/
def schemaToExpandableContent :
    Nat → Doc → Doc → String → String → Option String
  | 0, _, _, _, _ => none
  | fuel + 1, spec, schema, _schemaName, indent =>
    let resolved := resolveSchema spec schema
    if ¬ resolved.truthy then some ""
    else
      let type := resolved.jsGet "type"
      let isObject : Bool := decide (type = some (.str "object")) ||
        (match type with
         | some (.arr l) => l.contains (.str "object")
         | _ => false)
      match resolved.jsGet "properties" with
      | some props =>
        if isObject && props.isObjLike then
          match requiredListOf (resolved.jsGet "required") with
          | none => none
          | some requiredList =>
            match renderProps fuel spec requiredList (jsEntries props) indent with
            | none => none
            | some lines => some (joinNl lines)
        else some ""
      | none => some ""

/-- The `for (const [propName, propSchema] of Object.entries(props))`
loop (lines 155–240), accumulating the pushed lines. -/
def renderProps :
    Nat → Doc → List Doc → List (String × Doc) → String → Option (List String)
  | 0, _, _, _, _ => none
  | _ + 1, _, _, [], _ => some []
  | fuel + 1, spec, requiredList, (propName, propSchema) :: t, indent =>
    match renderProp fuel spec requiredList propName propSchema indent with
    | none => none
    | some block =>
      match renderProps fuel spec requiredList t indent with
      | none => none
      | some rest => some (block ++ rest)

/-- One iteration of the property loop (lines 156–239). -/
def renderProp :
    Nat → Doc → List Doc → String → Doc → String → Option (List String)
  | 0, _, _, _, _, _ => none
  | fuel + 1, spec, requiredList, propName, propSchema, indent =>
    let propResolved := resolveSchema spec propSchema
    let descRaw := jsOr (propResolved.jsGet "description") (propSchema.jsGet "description")
    let propDesc0 := normalizeDescription descRaw
    let hasDef := (propResolved.jsGet "default").isSome ∨ (propSchema.jsGet "default").isSome
    let propDesc :=
      if propDesc0 ≠ "" ∧ hasDef then
        propDesc0 ++ " Default: " ++
          stringifyTemplate (jsNullish (propResolved.jsGet "default") (propSchema.jsGet "default")) ++ "."
      else if propDesc0 = "" ∧ hasDef then
        "Default: " ++
          stringifyTemplate (jsNullish (propResolved.jsGet "default") (propSchema.jsGet "default")) ++ "."
      else propDesc0
    let isRequired := requiredList.contains (.str propName)
    match getTypeString spec (if propResolved.truthy then propResolved else propSchema)
        (propResolved.jsGet "__refName") with
    | none => none
    | some typeStr =>
      let refHasProps := Doc.truthyOpt (propSchema.jsGet "$ref") ∧
        Doc.truthyOpt ((resolveRef spec (propSchema.jsGet "$ref")).jsGet "properties")
      let propIsObject :=
        (propResolved.jsGet "type" = some (.str "object") ∨
          Doc.truthyOpt (propSchema.jsGet "$ref")) ∧
        (Doc.truthyOpt (propResolved.jsGet "properties") ∨ refHasProps)
      let propItems := jsOr (propResolved.jsGet "items") (propSchema.jsGet "items")
      let itemSchemaO : Option Doc :=
        if Doc.truthyOpt (Doc.jsGetOpt propItems "$ref") then
          some (resolveRef spec (Doc.jsGetOpt propItems "$ref"))
        else propItems
      let propIsArrayOfObject :=
        propResolved.jsGet "type" = some (.str "array") ∧
        Doc.truthyOpt (Doc.jsGetOpt itemSchemaO "properties")
      if propIsObject then
        let innerSchema :=
          if Doc.truthyOpt (propResolved.jsGet "properties") then propResolved
          else resolveRef spec (propSchema.jsGet "$ref")
        match schemaToExpandableContent fuel spec innerSchema propName (indent ++ "  ") with
        | none => none
        | some inner =>
          some ([indent ++ "<ResponseField name=\"" ++ propName ++ "\"" ++
                  typeAttr typeStr ++ requiredAttr isRequired ++ ">",
                 indent ++ "  " ++ normalizeDescription (some (.str propDesc)),
                 indent ++ "</ResponseField>",
                 indent ++ "<Expandable title=\"" ++ propName ++ " – properties\">"]
                ++ splitNl inner ++
                [indent ++ "</Expandable>"])
      else if propIsArrayOfObject then
        match getTypeString spec propResolved none with
        | none => none
        | some arrTypeStr =>
          match schemaToExpandableContent fuel spec (itemSchemaO.getD .null) "item"
              (indent ++ "  ") with
          | none => none
          | some inner =>
            some ([indent ++ "<ResponseField name=\"" ++ propName ++ "\"" ++
                    typeAttr arrTypeStr ++ requiredAttr isRequired ++ ">",
                   indent ++ "  " ++ propDesc,
                   indent ++ "</ResponseField>",
                   indent ++ "<Expandable title=\"" ++ propName ++ " – item structure\">"]
                  ++ (splitNl inner).filter (fun s => s ≠ "") ++
                  [indent ++ "</Expandable>"])
      else
        some [indent ++ "<ResponseField name=\"" ++ propName ++ "\"" ++
                typeAttr typeStr ++ requiredAttr isRequired ++ ">",
              indent ++ "  " ++ propDesc,
              indent ++ "</ResponseField>"]

end

/-- `schemaToMintlify(spec, schemaName)` (schema-to-mintlify.js lines
250–277): the not-found comment for a missing (or falsy) schema entry,
otherwise the root `ResponseField` with an optional description line
and, for an object schema with at least one property, a `properties`
expandable wrapping the rendered fields.  `none` models fuel
exhaustion or one of the renderer's reachable `TypeError`s (including
reading `components` of a `null` document). -/
def schemaToMintlify (fuel : Nat) (spec : Doc) (schemaName : String) : Option String :=
  match spec with
  | .null => none
  | _ =>
    let schema := Doc.jsGetOpt (Doc.jsGetOpt (spec.jsGet "components") "schemas") schemaName
    if ¬ Doc.truthyOpt schema then
      some ("<!-- Schema not found: " ++ schemaName ++ " -->\n")
    else
      let schemaV := schema.getD .null
      let resolved := resolveSchema spec schemaV
      let desc := normalizeDescription (jsOr (resolved.jsGet "description") (schemaV.jsGet "description"))
      match getTypeString spec resolved (some (.str schemaName)) with
      | none => none
      | some typeStr =>
        let hasProperties := resolved.jsGet "type" = some (.str "object") ∧
          Doc.truthyOpt (resolved.jsGet "properties") ∧
          jsKeysCount (resolved.jsGet "properties") > 0
        match (if hasProperties then
            (schemaToExpandableContent fuel spec resolved schemaName "    ").map
              (fun inner => ["  <Expandable title=\"properties\">", inner, "  </Expandable>"])
          else some []) with
        | none => none
        | some body =>
          let lines :=
            ["<ResponseField name=\"" ++ schemaName ++ "\"" ++ typeAttr typeStr ++ ">"]
            ++ (if desc ≠ "" then ["  " ++ desc] else [])
            ++ body ++ ["</ResponseField>"]
          some (joinNl lines ++ "\n")

/-- The per-name loop of `main` (schema-to-mintlify.js lines 288–294):
each requested schema name maps independently to the content written
to its own output file. -/
def renderBatch (fuel : Nat) (spec : Doc) (names : List String) :
    List (String × Option String) :=
  names.map (fun n => (n, schemaToMintlify fuel spec n))

/-!
### Output predicates

Decidable properties of Filter output used by the claims.
-/

mutual

/-- No mapping anywhere in the tree (the root, nested mapping values,
or mappings inside sequences) carries an entry whose value satisfies
`isRefToDeprecatedSchema` for `ns`. -/
def noBadPair (ns : List String) : Doc → Bool
  | .arr l => noBadPairList ns l
  | .obj ps => noBadPairPairs ns ps
  | _ => true

/-- `noBadPair` over sequence elements. -/
def noBadPairList (ns : List String) : List Doc → Bool
  | [] => true
  | v :: t => noBadPair ns v && noBadPairList ns t

/-- `noBadPair` over mapping entries. -/
def noBadPairPairs (ns : List String) : List (String × Doc) → Bool
  | [] => true
  | (_, v) :: t =>
    !isRefToDeprecatedSchema v ns && noBadPair ns v && noBadPairPairs ns t

end

/-- A mapping-valued entry may not carry the key `deprecated` at top
level; any other value is unconstrained. -/
def topNoDep : Doc → Bool
  | .obj qs => (lookupKey qs "deprecated").isNone
  | _ => true

mutual

/-- Every mapping-valued entry of every mapping in the tree lacks the
key `deprecated` (the root itself and mappings that are sequence
elements are not constrained). -/
def pairValueNoDep : Doc → Bool
  | .arr l => pairValueNoDepList l
  | .obj ps => pairValueNoDepPairs ps
  | _ => true

/-- `pairValueNoDep` over sequence elements. -/
def pairValueNoDepList : List Doc → Bool
  | [] => true
  | v :: t => pairValueNoDep v && pairValueNoDepList t

/-- `pairValueNoDep` over mapping entries: a mapping-valued entry must
lack the key `deprecated`, and all values recurse. -/
def pairValueNoDepPairs : List (String × Doc) → Bool
  | [] => true
  | (_, v) :: t => topNoDep v && pairValueNoDep v && pairValueNoDepPairs t

end

mutual

/-- Some mapping node anywhere in the tree (the root included)
carries the key `deprecated`. -/
def someMappingHasDeprecated : Doc → Bool
  | .arr l => someMappingHasDeprecatedList l
  | .obj ps => (lookupKey ps "deprecated").isSome || someMappingHasDeprecatedPairs ps
  | _ => false

/-- `someMappingHasDeprecated` over sequence elements. -/
def someMappingHasDeprecatedList : List Doc → Bool
  | [] => false
  | v :: t => someMappingHasDeprecated v || someMappingHasDeprecatedList t

/-- `someMappingHasDeprecated` over mapping values. -/
def someMappingHasDeprecatedPairs : List (String × Doc) → Bool
  | [] => false
  | (_, v) :: t => someMappingHasDeprecated v || someMappingHasDeprecatedPairs t

end

/-- The operation object carries `x-mint.metadata.mode === "wide"`. -/
def opWide (op : Doc) : Bool :=
  Doc.jsGetOpt (Doc.jsGetOpt (op.jsGet "x-mint") "metadata") "mode" = some (.str "wide")

/-- Every operation-named mapping value of a path item is wide. -/
def pathItemOpsWide (pi : Doc) : Bool :=
  match pi with
  | .obj ps => ps.all (fun kv =>
      if OPERATION_METHODS.contains kv.1 && kv.2.isMapping then opWide kv.2 else true)
  | _ => true

/-- Every operation of every path item under `paths` is wide. -/
def allOpsWide (d : Doc) : Bool :=
  match d.jsGet "paths" with
  | some (.obj pls) => pls.all (fun kv => pathItemOpsWide kv.2)
  | some (.arr l) => l.all pathItemOpsWide
  | _ => true

/-!
### Heap model of `stripDeprecated`

The pure embedding above cannot express the implicit claim that
`stripDeprecated` never mutates its input, because the only mutation
in the function — the in-place `delete result[key].deprecated` of
line 84 — is invisible in a value-level model.  Here the same
function is embedded over an explicit heap: composite values live at
numeric addresses, `result[key] = ...` allocation appends fresh
nodes, and the delete is a store update at the address returned for
the freshly built child.  Scalars are immutable JS primitives and
stay inline.
-/

/-- A JS value: an immutable primitive, or a reference to a heap
node. -/
inductive HVal where
  | vnull : HVal
  | vbool : Bool → HVal
  | vnum : Int → HVal
  | vstr : String → HVal
  | vref : Nat → HVal
deriving DecidableEq

/-- A heap node: an array or a (string-keyed, ordered) object. -/
inductive HNode where
  | arrN : List HVal → HNode
  | objN : List (String × HVal) → HNode
deriving DecidableEq

/-- The store: node `a` lives at index `a`; allocation appends. -/
abbrev Heap := List HNode

/-- First-match key lookup on an object node's entries. -/
def lookupKeyH : List (String × HVal) → String → Option HVal
  | [], _ => none
  | (k', v) :: t, k => if k' = k then some v else lookupKeyH t k

/-- Truthiness of a heap value (all heap objects are truthy). -/
def HVal.truthy : HVal → Bool
  | .vnull => false
  | .vbool b => b
  | .vnum n => n ≠ 0
  | .vstr s => s ≠ ""
  | .vref _ => true

/-- `getSchemaNameFromRef` applied to a heap value. -/
def hRefName (ov : Option HVal) : Option String :=
  match ov with
  | some (.vstr s) => (schemaNameMatch s.data).map String.mk
  | _ => none

/-- The rule-1 guard of the filter loop (line 74) on the heap:
`val && typeof val === 'object' && !Array.isArray(val) &&
val.deprecated === true`. -/
def hIsDeprecatedObj (h : Heap) (v : HVal) : Bool :=
  match v with
  | .vref a =>
    match h.get? a with
    | some (.objN ps) => lookupKeyH ps "deprecated" = some (.vbool true)
    | _ => false
  | _ => false

/-- `isRefToDeprecatedSchema` (lines 39–48) on the heap. -/
def hIsRefToDeprecated (h : Heap) (v : HVal) (ns : List String) : Bool :=
  match v with
  | .vref a =>
    match h.get? a with
    | some (.objN ps) =>
      if ns.isEmpty then false
      else
        (match hRefName (lookupKeyH ps "$ref") with
         | some n => ns.contains n
         | none => false)
        ||
        (match lookupKeyH ps "type", lookupKeyH ps "items" with
         | some (.vstr t), some (.vref ia) =>
           t = "array" &&
           (match h.get? ia with
            | some (.objN ips) =>
              (match lookupKeyH ips "$ref" with
               | some w => w.truthy
               | none => false) &&
              (match hRefName (lookupKeyH ips "$ref") with
               | some n => ns.contains n
               | none => false)
            | _ => false)
         | _, _ => false)
    | _ => false
  | _ => false

/-- `delete result[key].deprecated` over the heap: when the child
value is a reference to an object node, remove the key from that node
in place. -/
def deleteAt (h : Heap) (v : HVal) : Heap :=
  match v with
  | .vref ca =>
    match h.get? ca with
    | some (.objN qs) => h.set ca (.objN (qs.filter (fun kv => kv.1 ≠ "deprecated")))
    | _ => h
  | _ => h

mutual

/-- `stripDeprecated` (lines 61–88) over the heap: primitives are
returned as-is (no allocation), composites are rebuilt at fresh
addresses.  Fuel (`none` on exhaustion) stands in for the source's
unbounded recursion; a dangling address also gives `none` (it cannot
occur in a well-formed heap). -/
def stripH : Nat → Heap → HVal → List String → Option (Heap × HVal)
  | 0, _, _, _ => none
  | fuel + 1, h, .vref a, ns =>
    match h.get? a with
    | none => none
    | some (.arrN es) =>
      match stripHList fuel h es ns with
      | none => none
      | some (h1, es') => some (h1 ++ [.arrN es'], .vref h1.length)
    | some (.objN ps) =>
      match stripHPairs fuel h ps ns with
      | none => none
      | some (h1, ps') => some (h1 ++ [.objN ps'], .vref h1.length)
  | _ + 1, h, v, _ => some (h, v)

/-- `value.map(...)` of `stripDeprecated` over the heap. -/
def stripHList : Nat → Heap → List HVal → List String → Option (Heap × List HVal)
  | 0, _, _, _ => none
  | _ + 1, h, [], _ => some (h, [])
  | fuel + 1, h, v :: t, ns =>
    match stripH fuel h v ns with
    | none => none
    | some (h1, v') =>
      match stripHList fuel h1 t ns with
      | none => none
      | some (h2, t') => some (h2, v' :: t')

/-- The key loop of `stripDeprecated` over the heap.  After a kept
child is rebuilt, `delete result[key].deprecated` updates the store
at the child's (fresh) address when it is an object node. -/
def stripHPairs : Nat → Heap → List (String × HVal) → List String →
    Option (Heap × List (String × HVal))
  | 0, _, _, _ => none
  | _ + 1, h, [], _ => some (h, [])
  | fuel + 1, h, (k, v) :: t, ns =>
    if hIsDeprecatedObj h v then stripHPairs fuel h t ns
    else if hIsRefToDeprecated h v ns then stripHPairs fuel h t ns
    else
      match stripH fuel h v ns with
      | none => none
      | some (h1, v') =>
        match stripHPairs fuel (deleteAt h1 v') t ns with
        | none => none
        | some (h3, t') => some (h3, (k, v') :: t')

end

/-!
### Association-list lemmas
-/

theorem lookupKey_filter_ne (l : List (String × Doc)) (k : String)
    (hk : k ≠ "deprecated") :
    lookupKey (l.filter notDeprecatedKey) k = lookupKey l k := by
  induction l with
  | nil => rfl
  | cons kv t ih =>
    cases kv with
    | mk k' v =>
      by_cases h : k' = "deprecated"
      · rw [List.filter_cons, if_neg (by simp [notDeprecatedKey, h]), ih]
        have hne : ¬ (k' = k) := fun hh => hk (hh ▸ h)
        simp [lookupKey, hne]
      · rw [List.filter_cons, if_pos (by simp [notDeprecatedKey, h])]
        by_cases hkk : k' = k
        · simp [lookupKey, hkk]
        · simp [lookupKey, hkk, ih]

theorem lookupKey_setKey_self (l : List (String × Doc)) (k : String) (v : Doc) :
    lookupKey (setKey l k v) k = some v := by
  induction l with
  | nil => simp [setKey, lookupKey]
  | cons kv t ih =>
    cases kv with
    | mk k' v' =>
      by_cases h : k' = k
      · simp only [setKey, if_pos h]
        simp [lookupKey]
      · simp only [setKey, if_neg h]
        simp only [lookupKey, if_neg h]
        exact ih

theorem lookupKey_setKey_ne (l : List (String × Doc)) (k : String) (v : Doc)
    (k' : String) (h : k' ≠ k) :
    lookupKey (setKey l k v) k' = lookupKey l k' := by
  induction l with
  | nil =>
    have hne : ¬ (k = k') := fun hh => h hh.symm
    simp [setKey, lookupKey, hne]
  | cons kv t ih =>
    cases kv with
    | mk k0 v0 =>
      by_cases h0 : k0 = k
      · subst h0
        have hne : ¬ (k0 = k') := fun hh => h hh.symm
        simp only [setKey, if_pos rfl]
        simp [lookupKey, hne]
      · simp only [setKey, if_neg h0]
        by_cases h1 : k0 = k'
        · simp [lookupKey, h1]
        · simp [lookupKey, h1, ih]

theorem setKey_id (l : List (String × Doc)) (k : String) (v : Doc)
    (h : lookupKey l k = some v) : setKey l k v = l := by
  induction l with
  | nil => simp [lookupKey] at h
  | cons kv t ih =>
    cases kv with
    | mk k' v' =>
      by_cases hk : k' = k
      · subst hk
        simp [lookupKey] at h
        simp [setKey, h]
      · simp only [lookupKey, if_neg hk] at h
        simp [setKey, hk, ih h]

/-!
### Claim C5: schema-name extraction
-/

theorem schemaNameMatch_iff (cs n : List Char) :
    schemaNameMatch cs = some n ↔
      (cs = schemasRefPrefix ++ n ∧ n ≠ [] ∧ n.all jsDot = true) := by
  unfold schemaNameMatch
  by_cases hp : schemasRefPrefix.isPrefixOf cs
  · rw [if_pos hp]
    obtain ⟨t, ht⟩ := List.isPrefixOf_iff_prefix.mp hp
    subst ht
    rw [List.drop_left]
    by_cases hrest : t ≠ [] ∧ t.all jsDot = true
    · rw [if_pos hrest]
      constructor
      · intro h
        have ht : t = n := by injection h
        subst ht
        exact ⟨rfl, hrest⟩
      · rintro ⟨happ, -, -⟩
        have : t = n := List.append_cancel_left happ
        rw [this]
    · rw [if_neg hrest]
      constructor
      · intro h
        cases h
      · rintro ⟨happ, hne, hall⟩
        exact absurd ⟨(List.append_cancel_left happ) ▸ hne,
          (List.append_cancel_left happ) ▸ hall⟩ hrest
  · rw [if_neg hp]
    constructor
    · intro h
      cases h
    · rintro ⟨happ, -, -⟩
      exact absurd (List.isPrefixOf_iff_prefix.mpr (happ ▸ List.prefix_append _ _)) hp

/-- Claim C5 (amended): the anchored helper `getSchemaNameFromRef`
returns `<Name>` exactly when its argument is the string
`#/components/schemas/<Name>` with `<Name>` non-empty and free of
line terminators; the Renderer's `getRefName` is unanchored and also
matches the pattern mid-string (see the counterexample). -/
theorem C5_schema_name_extraction (s n : String) :
    getSchemaNameFromRef (some (.str s)) = some n ↔
      (s = "#/components/schemas/" ++ n ∧ n ≠ "" ∧ n.data.all jsDot = true) := by
  unfold getSchemaNameFromRef
  constructor
  · intro h
    rw [Option.map_eq_some'] at h
    obtain ⟨cs, hm, hmk⟩ := h
    rw [schemaNameMatch_iff] at hm
    obtain ⟨hdata, hne, hall⟩ := hm
    subst hmk
    refine ⟨?_, ?_, hall⟩
    · apply String.ext
      rw [String.data_append]
      exact hdata
    · intro hc
      have : cs = [] := congrArg String.data hc
      exact hne this
  · rintro ⟨hs, hne, hall⟩
    rw [Option.map_eq_some']
    refine ⟨n.data, ?_, by cases n; rfl⟩
    rw [schemaNameMatch_iff]
    refine ⟨?_, ?_, hall⟩
    · rw [hs, String.data_append]
      rfl
    · intro hc
      apply hne
      apply String.ext
      exact hc

/-- Claim C5 counterexample: the Renderer's extraction helper
`getRefName` (schema-to-mintlify.js lines 54–58) uses an unanchored
regex, so it extracts a name from a string that is not of the form
`#/components/schemas/<Name>` — the claim requires "no match" there. -/
theorem C5_counterexample :
    getRefName (some (.str "x#/components/schemas/Bar")) = some "Bar" ∧
    ∀ n : String, "x#/components/schemas/Bar" ≠ "#/components/schemas/" ++ n := by
  constructor
  · decide
  · intro n h
    have h2 : ("x#/components/schemas/Bar").data =
        ("#/components/schemas/" ++ n).data := by rw [h]
    rw [String.data_append] at h2
    have h3 := congrArg List.head? h2
    simp at h3

/-- Claim C5 witness: the amended equivalence applied at a concrete
matching reference. -/
theorem C5_witness :
    getSchemaNameFromRef (some (.str "#/components/schemas/Foo")) = some "Foo" :=
  (C5_schema_name_extraction "#/components/schemas/Foo" "Foo").mpr
    ⟨by decide, by decide, by decide⟩

/-!
### Claim C7: enum type strings
-/

/-- Claim C7: a schema declaring an `enum` sequence renders the type
string `"string (enum: ...)"` with at most the first five values
joined by `" | "` and `" | ..."` appended exactly when more than five
values exist. -/
theorem C7_enum_type_string (spec schema : Doc) (refName : Option Doc)
    (l : List Doc) (h : schema.jsGet "enum" = some (.arr l)) :
    getTypeString spec schema refName =
      some (.str ("string (enum: " ++
        (joinSep " | " (jsToStringElems (l.take 5)) ++
          (if 5 < l.length then " | ..." else "")) ++ ")")) := by
  cases schema <;> try simp [Doc.jsGet] at h
  case obj ps =>
    simp only [getTypeString, Doc.truthy, Doc.jsGet, h]
    simp [Doc.truthy, enumJoin]

/-- Claim C7 witness: the two concrete examples named by the claim. -/
theorem C7_witness :
    getTypeString (.obj []) (.obj [("enum",
        .arr [.num 1, .num 2, .num 3, .num 4, .num 5, .num 6])]) none
      = some (.str "string (enum: 1 | 2 | 3 | 4 | 5 | ...)") ∧
    getTypeString (.obj []) (.obj [("enum", .arr [.num 1, .num 2])]) none
      = some (.str "string (enum: 1 | 2)") :=
  ⟨(C7_enum_type_string (.obj [])
      (.obj [("enum", .arr [.num 1, .num 2, .num 3, .num 4, .num 5, .num 6])]) none
      [.num 1, .num 2, .num 3, .num 4, .num 5, .num 6] (by decide)).trans (by decide),
   (C7_enum_type_string (.obj []) (.obj [("enum", .arr [.num 1, .num 2])]) none
      [.num 1, .num 2] (by decide)).trans (by decide)⟩

/-!
### Claim C3: array type strings
-/

/-- The document used to analyse claim C3. -/
def C3spec : Doc := .obj [("components", .obj [("schemas", .obj [
  ("Obj", .obj [("type", .str "object"),
    ("properties", .obj [("x", .obj [("type", .str "string")])])])])])]

/-- The array schema whose items reference the object schema `Obj`. -/
def C3schema : Doc := .obj [("type", .str "array"),
  ("items", .obj [("$ref", .str "#/components/schemas/Obj")])]

/-- Claim C3 counterexample: for an array whose `items` is a
reference to an object schema with properties, the claim requires
`"array of <referenced name>"` (here `"array of Obj"`), but the code
resolves the reference first and returns `"array of object"`
whenever the resolved item is an object with properties (line 89–91
of schema-to-mintlify.js). -/
theorem C3_counterexample :
    getTypeString C3spec C3schema none = some (.str "array of object") ∧
    ("array of object" : String) ≠ "array of Obj" := by
  constructor
  · decide
  · decide

/-- Claim C3 (amended): for an array-typed schema with no (truthy)
enum, the type string is `"array of object"` whenever the item schema
after reference resolution — inline or referenced — is an object with
properties; otherwise it is `"array of <item-type>"` where
`<item-type>` is the referenced schema's name when `items` carries a
truthy `$ref` naming a reusable schema, else the resolved item's
declared string type, else `"object"`, with `" (<format>)"` appended
when the resolved item schema declares a truthy `format`. -/
theorem getTypeString_core_of_no_enum (spec : Doc) (ps : List (String × Doc))
    (refName : Option Doc)
    (henum : Doc.truthyOpt ((Doc.obj ps).jsGet "enum") = false) :
    getTypeString spec (.obj ps) refName =
      some (getTypeStringCore spec (.obj ps) refName) := by
  cases he : Doc.jsGet (.obj ps) "enum" with
  | none => simp [getTypeString, Doc.truthy, he]
  | some e =>
    rw [he] at henum
    simp only [Doc.truthyOpt] at henum
    simp [getTypeString, he, henum, show (Doc.obj ps).truthy = true from rfl]

theorem C3_array_type_string (spec schema : Doc) (refName : Option Doc)
    (henum : Doc.truthyOpt (schema.jsGet "enum") = false)
    (harr : rawTypeOf schema = some (.str "array")) :
    getTypeString spec schema refName =
      (let items :=
        match schema.jsGet "items" with
        | some v => if v.truthy then v else .obj []
        | none => .obj []
      let hasRef := Doc.truthyOpt (items.jsGet "$ref")
      let itemResolved := if hasRef then resolveRef spec (items.jsGet "$ref") else items
      some (if itemResolved.jsGet "type" = some (.str "object") ∧
          Doc.truthyOpt (itemResolved.jsGet "properties") then
        .str "array of object"
      else
        .str ("array of " ++
          (match (if hasRef then getRefName (items.jsGet "$ref") else none) with
           | some nm => nm
           | none =>
             match itemResolved.jsGet "type" with
             | some (.str t) => t
             | _ => "object") ++
          formatSuffix (itemResolved.jsGet "format")))) := by
  have hobj : ∃ ps, schema = .obj ps := by
    cases schema <;> simp [rawTypeOf, Doc.jsGet] at harr <;> exact ⟨_, rfl⟩
  obtain ⟨ps, rfl⟩ := hobj
  rw [getTypeString_core_of_no_enum spec ps refName henum]
  simp [getTypeStringCore, harr]

/-- Claim C3 witness: the amended rule at a concrete referenced
non-object item (the type string uses the referenced schema's
name). -/
theorem C3_witness :
    getTypeString
      (.obj [("components", .obj [("schemas", .obj [
        ("Foo", .obj [("type", .str "string")])])])])
      (.obj [("type", .str "array"),
        ("items", .obj [("$ref", .str "#/components/schemas/Foo")])]) none
      = some (.str "array of Foo") :=
  (C3_array_type_string _ _ none (by decide) (by decide)).trans (by decide)

/-!
### Claim C8: missing schema names
-/

/-- Claim C8: a requested name with no entry under
`components.schemas` yields exactly the visible not-found marker, and
removing that name from the batch leaves every other name's output
untouched (the batch is a pointwise map and is never aborted). -/
theorem C8_missing_schema (fuel : Nat) (spec : Doc) (names : List String)
    (n : String) (hnn : spec ≠ .null)
    (hmiss : Doc.jsGetOpt (Doc.jsGetOpt (spec.jsGet "components") "schemas") n = none) :
    schemaToMintlify fuel spec n = some ("<!-- Schema not found: " ++ n ++ " -->\n") ∧
    renderBatch fuel spec (names.filter (fun m => m ≠ n)) =
      (renderBatch fuel spec names).filter (fun p => p.1 ≠ n) := by
  constructor
  · cases spec with
    | null => exact absurd rfl hnn
    | bool b => simp [schemaToMintlify, hmiss, Doc.truthyOpt]
    | num m => simp [schemaToMintlify, hmiss, Doc.truthyOpt]
    | str s => simp [schemaToMintlify, hmiss, Doc.truthyOpt]
    | arr l => simp [schemaToMintlify, hmiss, Doc.truthyOpt]
    | obj ps => simp [schemaToMintlify, hmiss, Doc.truthyOpt]
  · induction names with
    | nil => rfl
    | cons m t ih =>
      by_cases hm : m = n
      · simp [renderBatch, List.filter_cons, hm] at ih ⊢
        exact ih
      · simp [renderBatch, List.filter_cons, hm] at ih ⊢
        exact ih

/-!
### Claims C2, C4, C9: counterexample documents
-/

/-- A document whose root mapping carries `deprecated: true`. -/
def C2cex : Doc := .obj [("deprecated", .bool true)]

/-- Claim C2 counterexample: the Filter leaves the root mapping's
`deprecated` key in place (the deletion of line 83–85 applies only to
mapping-valued entries of a mapping, never to the root), so the
output — here identical to the input — still contains a `deprecated`
key. -/
theorem C2_counterexample :
    filterDoc C2cex = some C2cex ∧ someMappingHasDeprecated C2cex = true := by
  constructor
  · decide
  · decide

/-- An operation whose pre-existing `x-mint.metadata` is the truthy
scalar `5`. -/
def C4cex : Doc := .obj [("paths", .obj [("/p", .obj [("get",
  .obj [("x-mint", .obj [("metadata", .num 5)])])])])]

/-- Claim C4 counterexample: the Filter succeeds and returns the
document unchanged, yet the claim's assertion that in Filter output
"every operation's x-mint.metadata.mode is already wide" fails: the
sloppy-mode write `op['x-mint'].metadata.mode = 'wide'` to the
number `5` is silently ignored (strip-deprecated.js line 102). -/
theorem C4_counterexample :
    filterDoc C4cex = some C4cex ∧ allOpsWide C4cex = false := by
  constructor
  · decide
  · decide

/-- An operation whose pre-existing `x-mint.metadata` is the truthy
scalar `"x"`. -/
def C9cex : Doc := .obj [("paths", .obj [("/p", .obj [("get",
  .obj [("x-mint", .obj [("metadata", .str "x")])])])])]

/-- Claim C9 counterexample: for an operation whose existing
`x-mint.metadata` is a truthy scalar, the stamping pass leaves the
operation without `x-mint.metadata.mode = "wide"` (the write to a
primitive's property is silently ignored in sloppy mode), refuting
the unconditional claim. -/
theorem C9_counterexample :
    filterDoc C9cex = some C9cex ∧ allOpsWide C9cex = false := by
  constructor
  · decide
  · decide

/-!
### Claim C10: the stripping pass never mutates its input
-/

theorem frame_length {h0 h1 : Heap} (h01 : h1.take h0.length = h0) :
    h0.length ≤ h1.length := by
  have := congrArg List.length h01
  simp only [List.length_take] at this
  omega

theorem heapFrame_trans {h0 h1 h2 : Heap}
    (h01 : h1.take h0.length = h0) (h12 : h2.take h1.length = h1) :
    h2.take h0.length = h0 := by
  have hle := frame_length h01
  have hmin : (h2.take h1.length).take h0.length = h2.take h0.length := by
    rw [List.take_take, min_eq_left hle]
  rw [← hmin, h12, h01]

theorem heapFrame_append {h0 h1 : Heap} (x : HNode)
    (h01 : h1.take h0.length = h0) : (h1 ++ [x]).take h0.length = h0 := by
  have hle := frame_length h01
  rw [List.take_append_of_le_length hle, h01]

theorem take_set_of_le (h1 : Heap) (a : Nat) (x : HNode) (n : Nat)
    (hna : n ≤ a) : (h1.set a x).take n = h1.take n := by
  induction h1 generalizing a n with
  | nil => simp
  | cons y t ih =>
    cases a with
    | zero =>
      have : n = 0 := Nat.le_zero.mp hna
      subst this
      simp
    | succ a' =>
      cases n with
      | zero => simp
      | succ n' =>
        simp only [List.set_cons_succ, List.take_succ_cons, List.cons.injEq,
          true_and]
        exact ih a' n' (Nat.le_of_succ_le_succ hna)

theorem stripH_frame_all : ∀ fuel : Nat,
    (∀ h v ns out, stripH fuel h v ns = some out →
      out.1.take h.length = h ∧ ∀ a, out.2 = .vref a → h.length ≤ a) ∧
    (∀ h es ns out, stripHList fuel h es ns = some out →
      out.1.take h.length = h) ∧
    (∀ h ps ns out, stripHPairs fuel h ps ns = some out →
      out.1.take h.length = h) := by
  intro fuel
  induction fuel with
  | zero =>
    refine ⟨?_, ?_, ?_⟩ <;> intro h v ns out hout <;>
      simp [stripH, stripHList, stripHPairs] at hout
  | succ f ih =>
    obtain ⟨ihV, ihL, ihP⟩ := ih
    refine ⟨?_, ?_, ?_⟩
    · intro h v ns out hout
      cases v with
      | vref a =>
        simp only [stripH] at hout
        cases hga : h.get? a with
        | none => simp only [hga] at hout; cases hout
        | some node =>
          simp only [hga] at hout
          cases node with
          | arrN es =>
            cases hl : stripHList f h es ns with
            | none => simp only [hl] at hout; cases hout
            | some p =>
              obtain ⟨h1, es'⟩ := p
              simp only [hl] at hout
              cases hout
              have hfr := ihL h es ns (h1, es') hl
              refine ⟨heapFrame_append _ hfr, ?_⟩
              intro a2 ha2
              cases ha2
              exact frame_length hfr
          | objN ps =>
            cases hp : stripHPairs f h ps ns with
            | none => simp only [hp] at hout; cases hout
            | some p =>
              obtain ⟨h1, ps'⟩ := p
              simp only [hp] at hout
              cases hout
              have hfr := ihP h ps ns (h1, ps') hp
              refine ⟨heapFrame_append _ hfr, ?_⟩
              intro a2 ha2
              cases ha2
              exact frame_length hfr
      | vnull =>
        simp only [stripH] at hout
        cases hout
        exact ⟨List.take_length _, by intro a ha; cases ha⟩
      | vbool b =>
        simp only [stripH] at hout
        cases hout
        exact ⟨List.take_length _, by intro a ha; cases ha⟩
      | vnum n =>
        simp only [stripH] at hout
        cases hout
        exact ⟨List.take_length _, by intro a ha; cases ha⟩
      | vstr s =>
        simp only [stripH] at hout
        cases hout
        exact ⟨List.take_length _, by intro a ha; cases ha⟩
    · intro h es ns out hout
      cases es with
      | nil =>
        simp only [stripHList] at hout
        cases hout
        exact List.take_length _
      | cons v t =>
        simp only [stripHList] at hout
        cases hv : stripH f h v ns with
        | none => simp only [hv] at hout; cases hout
        | some p =>
          obtain ⟨h1, v'⟩ := p
          simp only [hv] at hout
          cases ht : stripHList f h1 t ns with
          | none => simp only [ht] at hout; cases hout
          | some q =>
            obtain ⟨h2, t'⟩ := q
            simp only [ht] at hout
            cases hout
            exact heapFrame_trans (ihV h v ns (h1, v') hv).1
              (ihL h1 t ns (h2, t') ht)
    · intro h ps ns out hout
      cases ps with
      | nil =>
        simp only [stripHPairs] at hout
        cases hout
        exact List.take_length _
      | cons kv t =>
        obtain ⟨k, v⟩ := kv
        simp only [stripHPairs] at hout
        by_cases hd1 : hIsDeprecatedObj h v = true
        · rw [if_pos hd1] at hout
          exact ihP h t ns out hout
        · rw [if_neg hd1] at hout
          by_cases hd2 : hIsRefToDeprecated h v ns = true
          · rw [if_pos hd2] at hout
            exact ihP h t ns out hout
          · rw [if_neg hd2] at hout
            cases hv : stripH f h v ns with
            | none => simp only [hv] at hout; cases hout
            | some p =>
              obtain ⟨h1, v'⟩ := p
              simp only [hv] at hout
              have hfr1 := (ihV h v ns (h1, v') hv).1
              have hfresh := (ihV h v ns (h1, v') hv).2
              -- the store after the conditional delete still frames h
              have hfr2 : (deleteAt h1 v').take h.length = h := by
                cases v' with
                | vref ca =>
                  simp only [deleteAt]
                  split
                  · rw [take_set_of_le _ _ _ _ (hfresh ca rfl)]
                    exact hfr1
                  · exact hfr1
                | vnull => simp only [deleteAt]; exact hfr1
                | vbool b => simp only [deleteAt]; exact hfr1
                | vnum n => simp only [deleteAt]; exact hfr1
                | vstr s => simp only [deleteAt]; exact hfr1
              cases ht : stripHPairs f (deleteAt h1 v') t ns with
              | none => simp only [ht] at hout; cases hout
              | some q =>
                obtain ⟨h3, t'⟩ := q
                simp only [ht] at hout
                cases hout
                exact heapFrame_trans hfr2 (ihP _ t ns (h3, t') ht)

/-- Claim C10: the deprecation-stripping pass never mutates its
input.  In the heap embedding `stripH` (where the source's in-place
`delete result[key].deprecated` is a store update at the freshly
allocated child's address), every heap cell that existed before the
call is unchanged afterwards: the output heap extends the input heap
as a prefix, so every mapping, sequence and scalar reachable from the
input value is structurally identical before and after. -/
theorem C10_strip_preserves_input (fuel : Nat) (h : Heap) (v : HVal)
    (ns : List String) (out : Heap × HVal)
    (hout : stripH fuel h v ns = some out) :
    out.1.take h.length = h :=
  ((stripH_frame_all fuel).1 h v ns out hout).1

/-- Claim C10 witness: a concrete run — stripping an object that
contains a child object carrying `deprecated: false` allocates fresh
copies (with the child's `deprecated` key deleted in place on the
fresh copy) and leaves the two pre-existing heap cells untouched. -/
theorem C10_witness :
    stripH 6 [HNode.objN [("child", .vref 1)],
        HNode.objN [("deprecated", .vbool false), ("x", .vnum 1)]] (.vref 0) []
      = some ([HNode.objN [("child", .vref 1)],
          HNode.objN [("deprecated", .vbool false), ("x", .vnum 1)],
          HNode.objN [("x", .vnum 1)],
          HNode.objN [("child", .vref 2)]], .vref 3) ∧
    ([HNode.objN [("child", .vref 1)],
        HNode.objN [("deprecated", .vbool false), ("x", .vnum 1)],
        HNode.objN [("x", .vnum 1)],
        HNode.objN [("child", .vref 2)]] : Heap).take 2
      = [HNode.objN [("child", .vref 1)],
         HNode.objN [("deprecated", .vbool false), ("x", .vnum 1)]] :=
  ⟨by decide,
   C10_strip_preserves_input 6
     [HNode.objN [("child", .vref 1)],
      HNode.objN [("deprecated", .vbool false), ("x", .vnum 1)]] (.vref 0) []
     ([HNode.objN [("child", .vref 1)],
       HNode.objN [("deprecated", .vbool false), ("x", .vnum 1)],
       HNode.objN [("x", .vnum 1)],
       HNode.objN [("child", .vref 2)]], .vref 3) (by decide)⟩

/-!
### Claim C2 (amended): deleted `deprecated` keys
-/

theorem lookupKey_filter_deprecated (l : List (String × Doc)) :
    lookupKey (l.filter notDeprecatedKey) "deprecated" = none := by
  induction l with
  | nil => rfl
  | cons kv t ih =>
    cases kv with
    | mk k v =>
      by_cases h : k = "deprecated"
      · rw [List.filter_cons, if_neg (by simp [notDeprecatedKey, h])]
        exact ih
      · rw [List.filter_cons, if_pos (by simp [notDeprecatedKey, h])]
        simp only [lookupKey, if_neg h]
        exact ih

theorem pairValueNoDepPairs_filter (l : List (String × Doc))
    (p : String × Doc → Bool) (h : pairValueNoDepPairs l = true) :
    pairValueNoDepPairs (l.filter p) = true := by
  induction l with
  | nil => rfl
  | cons kv t ih =>
    cases kv with
    | mk k v =>
      simp only [pairValueNoDepPairs, Bool.and_eq_true] at h
      obtain ⟨⟨h1, h2⟩, h3⟩ := h
      rw [List.filter_cons]
      by_cases hp : p (k, v) = true
      · rw [if_pos hp]
        simp only [pairValueNoDepPairs, Bool.and_eq_true]
        exact ⟨⟨h1, h2⟩, ih h3⟩
      · rw [if_neg hp]
        exact ih h3

theorem pairValueNoDep_delete (v : Doc) (h : pairValueNoDep v = true) :
    pairValueNoDep (deleteDeprecated v) = true := by
  cases v with
  | obj ps =>
    simp only [deleteDeprecated, pairValueNoDep] at h ⊢
    exact pairValueNoDepPairs_filter ps _ h
  | null => exact h
  | bool b => exact h
  | num n => exact h
  | str s => exact h
  | arr l => exact h

theorem strip_pairValueNoDep (d : Doc) :
    ∀ ns, pairValueNoDep (stripDeprecated d ns) = true := by
  induction d using Doc.inductionOn with
  | hnull => intro ns; rfl
  | hbool b => intro ns; rfl
  | hnum n => intro ns; rfl
  | hstr s => intro ns; rfl
  | harr l ih =>
    intro ns
    simp only [stripDeprecated, pairValueNoDep]
    induction l with
    | nil => rfl
    | cons v t iht =>
      simp only [stripList, pairValueNoDepList, Bool.and_eq_true]
      exact ⟨ih v (by simp) ns,
        iht (fun x hx => ih x (List.mem_cons_of_mem _ hx))⟩
  | hobj ps ih =>
    intro ns
    simp only [stripDeprecated, pairValueNoDep]
    induction ps with
    | nil => rfl
    | cons kv t iht =>
      cases kv with
      | mk k v =>
        simp only [stripPairs]
        by_cases h1 : v.isMapping = true ∧ v.jsGet "deprecated" = some (.bool true)
        · rw [if_pos h1]
          exact iht (fun x hx => ih x (List.mem_cons_of_mem _ hx))
        · rw [if_neg h1]
          by_cases h2 : isRefToDeprecatedSchema v ns = true
          · rw [if_pos h2]
            exact iht (fun x hx => ih x (List.mem_cons_of_mem _ hx))
          · rw [if_neg h2]
            simp only [pairValueNoDepPairs, Bool.and_eq_true]
            refine ⟨⟨?_, ?_⟩, iht (fun x hx => ih x (List.mem_cons_of_mem _ hx))⟩
            · cases hsv : stripDeprecated v ns with
              | obj qs =>
                simp only [deleteDeprecated, topNoDep, lookupKey_filter_deprecated]
                rfl
              | null => simp [deleteDeprecated, topNoDep]
              | bool b => simp [deleteDeprecated, topNoDep]
              | num n => simp [deleteDeprecated, topNoDep]
              | str s => simp [deleteDeprecated, topNoDep]
              | arr l2 => simp [deleteDeprecated, topNoDep]
            · exact pairValueNoDep_delete _ (ih (k, v) (by simp) ns)

theorem pairValueNoDepPairs_lookup (ps : List (String × Doc)) (k : String)
    (v : Doc) (h : pairValueNoDepPairs ps = true) (hl : lookupKey ps k = some v) :
    topNoDep v = true ∧ pairValueNoDep v = true := by
  induction ps with
  | nil => cases hl
  | cons kv t ih =>
    cases kv with
    | mk k0 v0 =>
      simp only [pairValueNoDepPairs, Bool.and_eq_true] at h
      by_cases hk : k0 = k
      · simp only [lookupKey, if_pos hk] at hl
        cases hl
        exact ⟨h.1.1, h.1.2⟩
      · simp only [lookupKey, if_neg hk] at hl
        exact ih h.2 hl

theorem pairValueNoDepPairs_setKey (ps : List (String × Doc)) (k : String)
    (v : Doc) (h : pairValueNoDepPairs ps = true)
    (hv1 : topNoDep v = true) (hv2 : pairValueNoDep v = true) :
    pairValueNoDepPairs (setKey ps k v) = true := by
  induction ps with
  | nil => simp [setKey, pairValueNoDepPairs, hv1, hv2]
  | cons kv t ih =>
    cases kv with
    | mk k0 v0 =>
      simp only [pairValueNoDepPairs, Bool.and_eq_true] at h
      by_cases hk : k0 = k
      · simp only [setKey, if_pos hk, pairValueNoDepPairs, Bool.and_eq_true]
        exact ⟨⟨hv1, hv2⟩, h.2⟩
      · simp only [setKey, if_neg hk, pairValueNoDepPairs, Bool.and_eq_true]
        exact ⟨h.1, ih h.2⟩

theorem stampMetadata_pairValueNoDep (op xps out : List (String × Doc))
    (hop : pairValueNoDepPairs op = true)
    (hxps : pairValueNoDepPairs xps = true)
    (hxnd : (lookupKey xps "deprecated").isNone = true)
    (h : stampMetadata op xps = some out) :
    pairValueNoDepPairs out = true := by
  have hfresh : ∀ mps' : List (String × Doc),
      pairValueNoDepPairs mps' = true →
      (lookupKey mps' "deprecated").isNone = true →
      pairValueNoDepPairs
        (setKey op "x-mint" (.obj (setKey xps "metadata" (.obj mps')))) = true := by
    intro mps' hm1 hm2
    apply pairValueNoDepPairs_setKey op "x-mint" _ hop
    · simp only [topNoDep]
      rw [lookupKey_setKey_ne xps "metadata" _ "deprecated" (by decide)]
      exact hxnd
    · simp only [pairValueNoDep]
      apply pairValueNoDepPairs_setKey xps "metadata" _ hxps
      · simp only [topNoDep]
        exact hm2
      · simp only [pairValueNoDep]
        exact hm1
  unfold stampMetadata at h
  cases hmd : lookupKey xps "metadata" with
  | none =>
    rw [hmd] at h
    cases h
    exact hfresh [("mode", .str "wide")] (by decide) (by decide)
  | some mv =>
    rw [hmd] at h
    cases mv with
    | obj mps =>
      cases h
      have hm := pairValueNoDepPairs_lookup xps "metadata" (.obj mps) hxps hmd
      refine hfresh (setKey mps "mode" (.str "wide")) ?_ ?_
      · exact pairValueNoDepPairs_setKey mps "mode" _
          (by simpa [pairValueNoDep] using hm.2) (by decide) (by decide)
      · rw [lookupKey_setKey_ne mps "mode" _ "deprecated" (by decide)]
        simpa [topNoDep] using hm.1
    | arr l => cases h; exact hop
    | null =>
      simp only [Doc.truthy] at h
      cases h
      exact hfresh [("mode", .str "wide")] (by decide) (by decide)
    | bool b =>
      cases hb : b with
      | true => rw [hb] at h; simp only [Doc.truthy] at h; cases h; exact hop
      | false =>
        rw [hb] at h
        simp only [Doc.truthy] at h
        cases h
        exact hfresh [("mode", .str "wide")] (by decide) (by decide)
    | num n =>
      by_cases hn : (n : Int) = 0
      · subst hn
        simp only [Doc.truthy] at h
        simp at h
        cases h
        exact hfresh [("mode", .str "wide")] (by decide) (by decide)
      · simp only [Doc.truthy] at h
        rw [if_pos (by simpa using hn)] at h
        cases h
        exact hop
    | str s =>
      by_cases hs : s = ""
      · subst hs
        simp only [Doc.truthy] at h
        simp at h
        cases h
        exact hfresh [("mode", .str "wide")] (by decide) (by decide)
      · simp only [Doc.truthy] at h
        rw [if_pos (by simpa using hs)] at h
        cases h
        exact hop

theorem stampOp_pairValueNoDep (op out : List (String × Doc))
    (hop : pairValueNoDepPairs op = true) (h : stampOp op = some out) :
    pairValueNoDepPairs out = true := by
  have hset : pairValueNoDepPairs (setKey op "x-mint" (.obj [])) = true :=
    pairValueNoDepPairs_setKey op "x-mint" _ hop (by decide) (by decide)
  have hsetlk : ∀ m, stampMetadata (setKey op "x-mint" (.obj [])) [] = some m →
      pairValueNoDepPairs m = true := fun m hm =>
    stampMetadata_pairValueNoDep _ [] m hset (by decide) (by decide) hm
  unfold stampOp at h
  cases hxm : lookupKey op "x-mint" with
  | none =>
    rw [hxm] at h
    exact hsetlk out h
  | some xv =>
    rw [hxm] at h
    cases xv with
    | obj xps =>
      have hx := pairValueNoDepPairs_lookup op "x-mint" (.obj xps) hop hxm
      exact stampMetadata_pairValueNoDep op xps out hop
        (by simpa [pairValueNoDep] using hx.2) (by simpa [topNoDep] using hx.1) h
    | arr l => cases h; exact hop
    | null => simp only [Doc.truthy] at h; exact hsetlk out h
    | bool b =>
      cases hb : b with
      | true => rw [hb] at h; simp only [Doc.truthy] at h; cases h
      | false => rw [hb] at h; simp only [Doc.truthy] at h; exact hsetlk out h
    | num n =>
      by_cases hn : (n : Int) = 0
      · subst hn
        simp only [Doc.truthy] at h
        simp at h
        exact hsetlk out h
      · simp only [Doc.truthy] at h
        rw [if_pos (by simpa using hn)] at h
        cases h
    | str s =>
      by_cases hs : s = ""
      · subst hs
        simp only [Doc.truthy] at h
        simp at h
        exact hsetlk out h
      · simp only [Doc.truthy] at h
        rw [if_pos (by simpa using hs)] at h
        cases h

theorem stampMetadata_lookup_ne (op xps m : List (String × Doc)) (k : String)
    (hk : k ≠ "x-mint") (h : stampMetadata op xps = some m) :
    lookupKey m k = lookupKey op k := by
  have hset : ∀ d : Doc, lookupKey (setKey op "x-mint" d) k = lookupKey op k :=
    fun d => lookupKey_setKey_ne op "x-mint" d k hk
  unfold stampMetadata at h
  cases hmd : lookupKey xps "metadata" with
  | none => rw [hmd] at h; cases h; exact hset _
  | some mv =>
    rw [hmd] at h
    cases mv with
    | obj mps => cases h; exact hset _
    | arr l => cases h; rfl
    | null => simp only [Doc.truthy] at h; cases h; exact hset _
    | bool b =>
      cases hb : b with
      | true => rw [hb] at h; simp only [Doc.truthy] at h; cases h; rfl
      | false => rw [hb] at h; simp only [Doc.truthy] at h; cases h; exact hset _
    | num n =>
      by_cases hn : (n : Int) = 0
      · subst hn
        simp only [Doc.truthy] at h
        simp at h
        rw [← h]
        exact hset _
      · simp only [Doc.truthy] at h
        rw [if_pos (by simpa using hn)] at h
        cases h
        rfl
    | str s =>
      by_cases hs : s = ""
      · subst hs
        simp only [Doc.truthy] at h
        simp at h
        rw [← h]
        exact hset _
      · simp only [Doc.truthy] at h
        rw [if_pos (by simpa using hs)] at h
        cases h
        rfl

theorem stampOp_lookup_ne (op out : List (String × Doc)) (k : String)
    (hk : k ≠ "x-mint") (h : stampOp op = some out) :
    lookupKey out k = lookupKey op k := by
  have hset : lookupKey (setKey op "x-mint" (Doc.obj [])) k = lookupKey op k :=
    lookupKey_setKey_ne op "x-mint" _ k hk
  unfold stampOp at h
  cases hxm : lookupKey op "x-mint" with
  | none =>
    rw [hxm] at h
    rw [stampMetadata_lookup_ne _ [] out k hk h]
    exact hset
  | some xv =>
    rw [hxm] at h
    cases xv with
    | obj xps => exact stampMetadata_lookup_ne _ xps out k hk h
    | arr l => cases h; rfl
    | null =>
      simp only [Doc.truthy] at h
      rw [stampMetadata_lookup_ne _ [] out k hk h]
      exact hset
    | bool b =>
      cases hb : b with
      | true => rw [hb] at h; simp only [Doc.truthy] at h; cases h
      | false =>
        rw [hb] at h
        simp only [Doc.truthy] at h
        rw [stampMetadata_lookup_ne _ [] out k hk h]
        exact hset
    | num n =>
      by_cases hn : (n : Int) = 0
      · subst hn
        simp only [Doc.truthy] at h
        simp at h
        rw [stampMetadata_lookup_ne _ [] out k hk h]
        exact hset
      · simp only [Doc.truthy] at h
        rw [if_pos (by simpa using hn)] at h
        cases h
    | str s =>
      by_cases hs : s = ""
      · subst hs
        simp only [Doc.truthy] at h
        simp at h
        rw [stampMetadata_lookup_ne _ [] out k hk h]
        exact hset
      · simp only [Doc.truthy] at h
        rw [if_pos (by simpa using hs)] at h
        cases h

theorem stampOpsInPathItem_lookup_isNone (ps out : List (String × Doc))
    (k : String) (h : stampOpsInPathItem ps = some out) :
    (lookupKey out k).isNone = (lookupKey ps k).isNone := by
  induction ps generalizing out with
  | nil => simp only [stampOpsInPathItem] at h; cases h; rfl
  | cons kv t ih =>
    cases kv with
    | mk k0 v =>
      simp only [stampOpsInPathItem] at h
      cases hv : stampOpValue k0 v with
      | none => rw [hv] at h; cases h
      | some v' =>
        rw [hv] at h
        cases ht : stampOpsInPathItem t with
        | none => rw [ht] at h; cases h
        | some t' =>
          rw [ht] at h
          cases h
          by_cases hk : k0 = k
          · simp [lookupKey, hk]
          · simp only [lookupKey, if_neg hk]
            exact ih t' ht

theorem stampOpsInPathItem_pairValueNoDep (ps out : List (String × Doc))
    (hps : pairValueNoDepPairs ps = true) (h : stampOpsInPathItem ps = some out) :
    pairValueNoDepPairs out = true := by
  induction ps generalizing out with
  | nil => simp only [stampOpsInPathItem] at h; cases h; rfl
  | cons kv t ih =>
    cases kv with
    | mk k0 v =>
      simp only [pairValueNoDepPairs, Bool.and_eq_true] at hps
      simp only [stampOpsInPathItem] at h
      cases hv : stampOpValue k0 v with
      | none => rw [hv] at h; cases h
      | some v' =>
        rw [hv] at h
        cases ht : stampOpsInPathItem t with
        | none => rw [ht] at h; cases h
        | some t' =>
          rw [ht] at h
          cases h
          simp only [pairValueNoDepPairs, Bool.and_eq_true]
          refine ⟨?_, ih t' hps.2 ht⟩
          -- the stamped (or untouched) value keeps both facts
          unfold stampOpValue at hv
          by_cases hm : OPERATION_METHODS.contains k0
          · rw [if_pos hm] at hv
            cases v with
            | obj ops =>
              dsimp only at hv
              cases hso : stampOp ops with
              | none => rw [hso] at hv; simp at hv
              | some ops' =>
                rw [hso] at hv
                simp at hv
                rw [← hv]
                constructor
                · simp only [topNoDep]
                  rw [stampOp_lookup_ne ops ops' "deprecated" (by decide) hso]
                  simpa [topNoDep] using hps.1.1
                · simp only [pairValueNoDep]
                  exact stampOp_pairValueNoDep ops ops'
                    (by simpa [pairValueNoDep] using hps.1.2) hso
            | null => cases hv; exact hps.1
            | bool b => cases hv; exact hps.1
            | num n => cases hv; exact hps.1
            | str s => cases hv; exact hps.1
            | arr l => cases hv; exact hps.1
          · rw [if_neg hm] at hv
            cases hv
            exact hps.1

theorem stampPathItem_pairValueNoDep (pi pi' : Doc)
    (hpi : pairValueNoDep pi = true) (h : stampPathItem pi = some pi') :
    pairValueNoDep pi' = true := by
  cases pi with
  | obj ps =>
    simp only [stampPathItem] at h
    cases hso : stampOpsInPathItem ps with
    | none => rw [hso] at h; simp at h
    | some out =>
      rw [hso] at h
      simp at h
      rw [← h]
      simp only [pairValueNoDep] at hpi ⊢
      exact stampOpsInPathItem_pairValueNoDep ps out hpi hso
  | null => cases h; exact hpi
  | bool b => cases h; exact hpi
  | num n => cases h; exact hpi
  | str s => cases h; exact hpi
  | arr l => cases h; exact hpi

theorem stampPathItem_topNoDep (pi pi' : Doc)
    (hpi : topNoDep pi = true) (h : stampPathItem pi = some pi') :
    topNoDep pi' = true := by
  cases pi with
  | obj ps =>
    simp only [stampPathItem] at h
    cases hso : stampOpsInPathItem ps with
    | none => rw [hso] at h; simp at h
    | some out =>
      rw [hso] at h
      simp at h
      rw [← h]
      simp only [topNoDep] at hpi ⊢
      rw [stampOpsInPathItem_lookup_isNone ps out "deprecated" hso]
      exact hpi
  | null => cases h; exact hpi
  | bool b => cases h; exact hpi
  | num n => cases h; exact hpi
  | str s => cases h; exact hpi
  | arr l => cases h; exact hpi

theorem stampPathValues_pairValueNoDep (pls out : List (String × Doc))
    (hpls : pairValueNoDepPairs pls = true) (h : stampPathValues pls = some out) :
    pairValueNoDepPairs out = true := by
  induction pls generalizing out with
  | nil => simp only [stampPathValues] at h; cases h; rfl
  | cons kv t ih =>
    cases kv with
    | mk k0 v =>
      simp only [pairValueNoDepPairs, Bool.and_eq_true] at hpls
      simp only [stampPathValues] at h
      cases hv : stampPathItem v with
      | none => rw [hv] at h; cases h
      | some v' =>
        rw [hv] at h
        cases ht : stampPathValues t with
        | none => rw [ht] at h; cases h
        | some t' =>
          rw [ht] at h
          cases h
          simp only [pairValueNoDepPairs, Bool.and_eq_true]
          exact ⟨⟨stampPathItem_topNoDep v v' hpls.1.1 hv,
            stampPathItem_pairValueNoDep v v' hpls.1.2 hv⟩, ih t' hpls.2 ht⟩

theorem stampPathValues_lookup_isNone (pls out : List (String × Doc))
    (k : String) (h : stampPathValues pls = some out) :
    (lookupKey out k).isNone = (lookupKey pls k).isNone := by
  induction pls generalizing out with
  | nil => simp only [stampPathValues] at h; cases h; rfl
  | cons kv t ih =>
    cases kv with
    | mk k0 v =>
      simp only [stampPathValues] at h
      cases hv : stampPathItem v with
      | none => rw [hv] at h; cases h
      | some v' =>
        rw [hv] at h
        cases ht : stampPathValues t with
        | none => rw [ht] at h; cases h
        | some t' =>
          rw [ht] at h
          cases h
          by_cases hk : k0 = k
          · simp [lookupKey, hk]
          · simp only [lookupKey, if_neg hk]
            exact ih t' ht

theorem stampPathElems_pairValueNoDep (l out : List Doc)
    (hl : pairValueNoDepList l = true) (h : stampPathElems l = some out) :
    pairValueNoDepList out = true := by
  induction l generalizing out with
  | nil => simp only [stampPathElems] at h; cases h; rfl
  | cons v t ih =>
    simp only [pairValueNoDepList, Bool.and_eq_true] at hl
    simp only [stampPathElems] at h
    cases hv : stampPathItem v with
    | none => rw [hv] at h; cases h
    | some v' =>
      rw [hv] at h
      cases ht : stampPathElems t with
      | none => rw [ht] at h; cases h
      | some t' =>
        rw [ht] at h
        cases h
        simp only [pairValueNoDepList, Bool.and_eq_true]
        exact ⟨stampPathItem_pairValueNoDep v v' hl.1 hv, ih t' hl.2 ht⟩

theorem ensureWideMode_pairValueNoDep (d out : Doc)
    (hd : pairValueNoDep d = true) (h : ensureWideMode d = some out) :
    pairValueNoDep out = true := by
  cases d with
  | null => cases h
  | obj ps =>
    simp only [ensureWideMode] at h
    cases hps : lookupKey ps "paths" with
    | none => simp only [hps] at h; cases h; exact hd
    | some pv =>
      simp only [hps] at h
      simp only [pairValueNoDep] at hd
      cases pv with
      | obj pls =>
        cases hsv : stampPathValues pls with
        | none => simp only [hsv] at h; simp at h
        | some pls' =>
          simp only [hsv] at h
          simp at h
          rw [← h]
          simp only [pairValueNoDep]
          have hfacts := pairValueNoDepPairs_lookup ps "paths" (.obj pls) hd hps
          apply pairValueNoDepPairs_setKey ps "paths" _ hd
          · simp only [topNoDep]
            rw [stampPathValues_lookup_isNone pls pls' "deprecated" hsv]
            simpa [topNoDep] using hfacts.1
          · simp only [pairValueNoDep]
            exact stampPathValues_pairValueNoDep pls pls'
              (by simpa [pairValueNoDep] using hfacts.2) hsv
      | arr l =>
        cases hsv : stampPathElems l with
        | none => simp only [hsv] at h; simp at h
        | some l' =>
          simp only [hsv] at h
          simp at h
          rw [← h]
          simp only [pairValueNoDep]
          have hfacts := pairValueNoDepPairs_lookup ps "paths" (.arr l) hd hps
          apply pairValueNoDepPairs_setKey ps "paths" _ hd
          · simp [topNoDep]
          · simp only [pairValueNoDep]
            exact stampPathElems_pairValueNoDep l l'
              (by simpa [pairValueNoDep] using hfacts.2) hsv
      | null => cases h; exact hd
      | bool b => cases h; exact hd
      | num n => cases h; exact hd
      | str s => cases h; exact hd
  | bool b => cases h; exact hd
  | num n => cases h; exact hd
  | str s => cases h; exact hd
  | arr l => cases h; exact hd

/-- Claim C2 (amended): in Filter output, every mapping-valued entry
of every mapping lacks the key `deprecated` — the Filter deletes the
key from each kept object-valued entry.  (The original claim extended
this to every mapping including the root; the counterexample shows
the root and sequence-element mappings are exempt.) -/
theorem C2_pair_values_no_deprecated (d out : Doc)
    (h : filterDoc d = some out) : pairValueNoDep out = true :=
  ensureWideMode_pairValueNoDep _ out (strip_pairValueNoDep d _) h

/-- Claim C2 witness: a concrete document whose nested entry carries
`deprecated: false`; the Filter output satisfies the amended
invariant. -/
theorem C2_witness :
    pairValueNoDep (.obj [("info", .obj [("title", .str "t")]),
      ("paths", .obj [("/p", .obj [("get", .obj [("x-mint",
        .obj [("metadata", .obj [("mode", .str "wide")])])])])])]) = true :=
  C2_pair_values_no_deprecated
    (.obj [("info", .obj [("deprecated", .bool false), ("title", .str "t")]),
      ("paths", .obj [("/p", .obj [("get", .obj [])])])])
    (.obj [("info", .obj [("title", .str "t")]),
      ("paths", .obj [("/p", .obj [("get", .obj [("x-mint",
        .obj [("metadata", .obj [("mode", .str "wide")])])])])])]) (by decide)

/-!
### Claim C1: no reference to a deprecated schema survives
-/

theorem allNe_lookup_none (t : List (String × Doc)) (k : String)
    (h : (t.all fun kv => kv.1 ≠ k) = true) : lookupKey t k = none := by
  induction t with
  | nil => rfl
  | cons kv t ih =>
    cases kv with
    | mk k0 v0 =>
      simp only [List.all_cons, Bool.and_eq_true, decide_eq_true_eq] at h
      simp only [lookupKey, if_neg h.1]
      exact ih h.2

theorem WFPairs_lookup (ps : List (String × Doc)) (k : String) (v : Doc)
    (h : Doc.WFPairs ps = true) (hl : lookupKey ps k = some v) : v.WF = true := by
  induction ps with
  | nil => cases hl
  | cons kv t ih =>
    cases kv with
    | mk k0 v0 =>
      simp only [Doc.WFPairs, Bool.and_eq_true] at h
      by_cases hk : k0 = k
      · simp only [lookupKey, if_pos hk] at hl
        cases hl
        exact h.1
      · simp only [lookupKey, if_neg hk] at hl
        exact ih h.2 hl

theorem WFList_mem (l : List Doc) (v : Doc) (h : Doc.WFList l = true)
    (hv : v ∈ l) : v.WF = true := by
  induction l with
  | nil => cases hv
  | cons x t ih =>
    simp only [Doc.WFList, Bool.and_eq_true] at h
    rcases List.mem_cons.mp hv with rfl | hvt
    · exact h.1
    · exact ih h.2 hvt

theorem WFPairs_mem (ps : List (String × Doc)) (kv : String × Doc)
    (h : Doc.WFPairs ps = true) (hkv : kv ∈ ps) : kv.2.WF = true := by
  induction ps with
  | nil => cases hkv
  | cons x t ih =>
    simp only [Doc.WFPairs, Bool.and_eq_true] at h
    rcases List.mem_cons.mp hkv with rfl | hvt
    · exact h.1
    · exact ih h.2 hvt

theorem stripPairs_lookup_none (ps : List (String × Doc)) (ns : List String)
    (k : String) (h : lookupKey ps k = none) :
    lookupKey (stripPairs ps ns) k = none := by
  induction ps with
  | nil => rfl
  | cons kv t ih =>
    cases kv with
    | mk k0 v0 =>
      by_cases hk : k0 = k
      · simp only [lookupKey, if_pos hk] at h
        cases h
      · simp only [lookupKey, if_neg hk] at h
        simp only [stripPairs]
        by_cases h1 : v0.isMapping = true ∧ v0.jsGet "deprecated" = some (.bool true)
        · rw [if_pos h1]
          exact ih h
        · rw [if_neg h1]
          by_cases h2 : isRefToDeprecatedSchema v0 ns = true
          · rw [if_pos h2]
            exact ih h
          · rw [if_neg h2]
            simp only [lookupKey, if_neg hk]
            exact ih h

theorem stripPairs_lookup (ps : List (String × Doc)) (ns : List String)
    (k : String) (w : Doc) (hnd : nodupKeys ps = true)
    (h : lookupKey (stripPairs ps ns) k = some w) :
    ∃ v0, lookupKey ps k = some v0 ∧
      w = deleteDeprecated (stripDeprecated v0 ns) := by
  induction ps with
  | nil => cases h
  | cons kv t ih =>
    cases kv with
    | mk k0 v0 =>
      simp only [nodupKeys, Bool.and_eq_true] at hnd
      by_cases hk : k0 = k
      · subst hk
        have htnone : lookupKey t k0 = none := allNe_lookup_none t k0 hnd.1
        simp only [stripPairs] at h
        by_cases h1 : v0.isMapping = true ∧ v0.jsGet "deprecated" = some (.bool true)
        · rw [if_pos h1] at h
          rw [stripPairs_lookup_none t ns k0 htnone] at h
          cases h
        · rw [if_neg h1] at h
          by_cases h2 : isRefToDeprecatedSchema v0 ns = true
          · rw [if_pos h2] at h
            rw [stripPairs_lookup_none t ns k0 htnone] at h
            cases h
          · rw [if_neg h2] at h
            simp only [lookupKey, if_pos rfl] at h
            cases h
            exact ⟨v0, by simp [lookupKey], rfl⟩
      · simp only [stripPairs] at h
        have step : ∀ hres : lookupKey (stripPairs t ns) k = some w,
            ∃ v1, lookupKey ((k0, v0) :: t) k = some v1 ∧
              w = deleteDeprecated (stripDeprecated v1 ns) := by
          intro hres
          obtain ⟨v1, hv1, hw⟩ := ih hnd.2 hres
          exact ⟨v1, by simp only [lookupKey, if_neg hk]; exact hv1, hw⟩
        by_cases h1 : v0.isMapping = true ∧ v0.jsGet "deprecated" = some (.bool true)
        · rw [if_pos h1] at h
          exact step h
        · rw [if_neg h1] at h
          by_cases h2 : isRefToDeprecatedSchema v0 ns = true
          · rw [if_pos h2] at h
            exact step h
          · rw [if_neg h2] at h
            simp only [lookupKey, if_neg hk] at h
            exact step h

theorem delete_strip_str (v : Doc) (ns : List String) (r : String)
    (h : deleteDeprecated (stripDeprecated v ns) = .str r) : v = .str r := by
  cases v <;> simp_all [stripDeprecated, deleteDeprecated]

theorem delete_strip_obj (v : Doc) (ns : List String)
    (qs : List (String × Doc))
    (h : deleteDeprecated (stripDeprecated v ns) = .obj qs) :
    ∃ ps0, v = .obj ps0 ∧ qs = (stripPairs ps0 ns).filter notDeprecatedKey := by
  cases v <;> simp_all [stripDeprecated, deleteDeprecated]

theorem delete_strip_not_arr_to_obj (v : Doc) (ns : List String)
    (h : (deleteDeprecated (stripDeprecated v ns)).isObjLike = true) :
    v.isObjLike = true := by
  cases v <;> simp_all [stripDeprecated, deleteDeprecated, Doc.isObjLike]

theorem getSchemaNameFromRef_some (o : Option Doc) (n : String)
    (h : getSchemaNameFromRef o = some n) : ∃ r, o = some (.str r) := by
  cases o with
  | none => cases h
  | some v => cases v <;> simp [getSchemaNameFromRef] at h <;> exact ⟨_, rfl⟩

theorem isRef_obj_elim (ps : List (String × Doc)) (ns : List String)
    (h : isRefToDeprecatedSchema (.obj ps) ns = true) :
    ns.isEmpty = false ∧
    ((∃ r n, lookupKey ps "$ref" = some (.str r) ∧
        getSchemaNameFromRef (some (.str r)) = some n ∧ ns.contains n = true) ∨
     (∃ items r n, lookupKey ps "type" = some (.str "array") ∧
        lookupKey ps "items" = some items ∧ items.isObjLike = true ∧
        items.jsGet "$ref" = some (.str r) ∧ (Doc.str r).truthy = true ∧
        getSchemaNameFromRef (some (.str r)) = some n ∧ ns.contains n = true)) := by
  unfold isRefToDeprecatedSchema at h
  dsimp only at h
  by_cases hns : ns.isEmpty = true
  · rw [if_pos hns] at h
    cases h
  · rw [if_neg hns] at h
    refine ⟨by simpa using hns, ?_⟩
    rcases (Bool.or_eq_true _ _).mp h with hdir | hitems
    · left
      cases hg : getSchemaNameFromRef (lookupKey ps "$ref") with
      | none => rw [hg] at hdir; cases hdir
      | some n =>
        rw [hg] at hdir
        obtain ⟨r, hr⟩ := getSchemaNameFromRef_some _ n hg
        exact ⟨r, n, hr, hr ▸ hg, hdir⟩
    · right
      cases ht : lookupKey ps "type" with
      | none => rw [ht] at hitems; cases hitems
      | some tv =>
        rw [ht] at hitems
        cases tv with
        | null => simp at hitems
        | bool b => simp at hitems
        | num n => simp at hitems
        | arr l => simp at hitems
        | obj o => simp at hitems
        | str t =>
          cases hi : lookupKey ps "items" with
          | none => rw [hi] at hitems; cases hitems
          | some items =>
            rw [hi] at hitems
            simp only [Bool.and_eq_true, decide_eq_true_eq] at hitems
            obtain ⟨⟨⟨hta, hobj⟩, htr⟩, hmatch⟩ := hitems
            cases hg : getSchemaNameFromRef (items.jsGet "$ref") with
            | none => rw [hg] at hmatch; cases hmatch
            | some n =>
              rw [hg] at hmatch
              obtain ⟨r, hr⟩ := getSchemaNameFromRef_some _ n hg
              refine ⟨items, r, n, ?_, rfl, hobj, hr, ?_, hr ▸ hg, hmatch⟩
              · rw [hta]
              · rw [hr] at htr
                simpa [Doc.truthyOpt] using htr

theorem isRef_obj_intro_direct (ps : List (String × Doc)) (ns : List String)
    (r n : String) (hns : ns.isEmpty = false)
    (h1 : lookupKey ps "$ref" = some (.str r))
    (h2 : getSchemaNameFromRef (some (.str r)) = some n)
    (h3 : ns.contains n = true) :
    isRefToDeprecatedSchema (.obj ps) ns = true := by
  unfold isRefToDeprecatedSchema
  dsimp only
  rw [if_neg (by simp [hns]), h1, h2]
  simp [h3]
  exact Or.inl (by simpa using h3)

theorem isRef_obj_intro_items (ps : List (String × Doc)) (ns : List String)
    (items : Doc) (r n : String) (hns : ns.isEmpty = false)
    (ht : lookupKey ps "type" = some (.str "array"))
    (hi : lookupKey ps "items" = some items)
    (hobj : items.isObjLike = true)
    (href : items.jsGet "$ref" = some (.str r))
    (htr : (Doc.str r).truthy = true)
    (h2 : getSchemaNameFromRef (some (.str r)) = some n)
    (h3 : ns.contains n = true) :
    isRefToDeprecatedSchema (.obj ps) ns = true := by
  unfold isRefToDeprecatedSchema
  dsimp only
  rw [if_neg (by simp [hns]), ht, hi]
  simp [href, h2, hobj, h3, Doc.truthyOpt, htr]
  exact Or.inr (by simpa using h3)

theorem isRef_of_strip (v : Doc) (ns : List String) (hwf : v.WF = true)
    (h : isRefToDeprecatedSchema (deleteDeprecated (stripDeprecated v ns)) ns = true) :
    isRefToDeprecatedSchema v ns = true := by
  -- the stripped value is a mapping, hence so is the original
  cases v with
  | obj ps =>
    simp only [stripDeprecated, deleteDeprecated] at h
    have hwf2 : nodupKeys ps = true ∧ Doc.WFPairs ps = true := by
      simpa [Doc.WF, Bool.and_eq_true] using hwf
    obtain ⟨hns, hcases⟩ := isRef_obj_elim _ ns h
    rcases hcases with ⟨r, n, hr, hg, hc⟩ | ⟨items, r, n, ht, hi, hobj, href, htr, hg, hc⟩
    · -- direct `$ref`
      rw [lookupKey_filter_ne _ _ (by decide)] at hr
      obtain ⟨v0, hv0, hw⟩ := stripPairs_lookup ps ns _ _ hwf2.1 hr
      have hv0s : v0 = .str r := delete_strip_str v0 ns r hw.symm
      exact isRef_obj_intro_direct ps ns r n hns (hv0s ▸ hv0) hg hc
    · -- `type: array` with `items.$ref`
      rw [lookupKey_filter_ne _ _ (by decide)] at ht hi
      obtain ⟨t0, ht0, hwt⟩ := stripPairs_lookup ps ns _ _ hwf2.1 ht
      have ht0s : t0 = .str "array" := delete_strip_str t0 ns _ hwt.symm
      obtain ⟨i0, hi0, hwi⟩ := stripPairs_lookup ps ns _ _ hwf2.1 hi
      -- the stripped items value is a mapping carrying the `$ref`
      cases hitems : items with
      | obj qs =>
        rw [hitems] at hwi href
        obtain ⟨ps2, hps2, hqs⟩ := delete_strip_obj i0 ns qs hwi.symm
        have hwfi : i0.WF = true := WFPairs_lookup ps "items" i0 hwf2.2 hi0
        rw [hps2] at hwfi
        have hwfi2 : nodupKeys ps2 = true ∧ Doc.WFPairs ps2 = true := by
          simpa [Doc.WF, Bool.and_eq_true] using hwfi
        simp only [Doc.jsGet] at href
        rw [hqs, lookupKey_filter_ne _ _ (by decide)] at href
        obtain ⟨v2, hv2, hw2⟩ := stripPairs_lookup ps2 ns _ _ hwfi2.1 href
        have hv2s : v2 = .str r := delete_strip_str v2 ns r hw2.symm
        refine isRef_obj_intro_items ps ns (.obj ps2) r n hns
          (ht0s ▸ ht0) (hps2 ▸ hi0) rfl ?_ htr hg hc
        simp only [Doc.jsGet]
        rw [← hv2s]
        exact hv2
      | arr l =>
        rw [hitems] at href
        simp [Doc.jsGet] at href
      | null => rw [hitems] at hobj; simp [Doc.isObjLike] at hobj
      | bool b => rw [hitems] at hobj; simp [Doc.isObjLike] at hobj
      | num m => rw [hitems] at hobj; simp [Doc.isObjLike] at hobj
      | str s => rw [hitems] at hobj; simp [Doc.isObjLike] at hobj
  | null => simp [stripDeprecated, deleteDeprecated, isRefToDeprecatedSchema] at h
  | bool b => simp [stripDeprecated, deleteDeprecated, isRefToDeprecatedSchema] at h
  | num n => simp [stripDeprecated, deleteDeprecated, isRefToDeprecatedSchema] at h
  | str s => simp [stripDeprecated, deleteDeprecated, isRefToDeprecatedSchema] at h
  | arr l => simp [stripDeprecated, deleteDeprecated, isRefToDeprecatedSchema] at h

theorem noBadPairPairs_filter (ns : List String) (l : List (String × Doc))
    (p : String × Doc → Bool) (h : noBadPairPairs ns l = true) :
    noBadPairPairs ns (l.filter p) = true := by
  induction l with
  | nil => rfl
  | cons kv t ih =>
    cases kv with
    | mk k v =>
      simp only [noBadPairPairs, Bool.and_eq_true] at h
      rw [List.filter_cons]
      by_cases hp : p (k, v) = true
      · rw [if_pos hp]
        simp only [noBadPairPairs, Bool.and_eq_true]
        exact ⟨h.1, ih h.2⟩
      · rw [if_neg hp]
        exact ih h.2

theorem noBadPair_delete (ns : List String) (v : Doc)
    (h : noBadPair ns v = true) : noBadPair ns (deleteDeprecated v) = true := by
  cases v with
  | obj ps =>
    simp only [deleteDeprecated, noBadPair] at h ⊢
    exact noBadPairPairs_filter ns ps _ h
  | null => exact h
  | bool b => exact h
  | num n => exact h
  | str s => exact h
  | arr l => exact h

theorem strip_noBadPair (d : Doc) :
    ∀ ns, d.WF = true → noBadPair ns (stripDeprecated d ns) = true := by
  induction d using Doc.inductionOn with
  | hnull => intro ns _; rfl
  | hbool b => intro ns _; rfl
  | hnum n => intro ns _; rfl
  | hstr s => intro ns _; rfl
  | harr l ih =>
    intro ns hwf
    simp only [Doc.WF] at hwf
    simp only [stripDeprecated, noBadPair]
    induction l with
    | nil => rfl
    | cons v t iht =>
      simp only [Doc.WFList, Bool.and_eq_true] at hwf
      simp only [stripList, noBadPairList, Bool.and_eq_true]
      exact ⟨ih v (by simp) ns hwf.1,
        iht (fun x hx => ih x (List.mem_cons_of_mem _ hx)) hwf.2⟩
  | hobj ps ih =>
    intro ns hwf
    have hwf2 : nodupKeys ps = true ∧ Doc.WFPairs ps = true := by
      simpa [Doc.WF, Bool.and_eq_true] using hwf
    simp only [stripDeprecated, noBadPair]
    clear hwf
    obtain ⟨hnd, hwfp⟩ := hwf2
    induction ps with
    | nil => rfl
    | cons kv t iht =>
      cases kv with
      | mk k v =>
        simp only [nodupKeys, Bool.and_eq_true] at hnd
        simp only [Doc.WFPairs, Bool.and_eq_true] at hwfp
        simp only [stripPairs]
        by_cases h1 : v.isMapping = true ∧ v.jsGet "deprecated" = some (.bool true)
        · rw [if_pos h1]
          exact iht (fun x hx => ih x (List.mem_cons_of_mem _ hx)) hnd.2 hwfp.2
        · rw [if_neg h1]
          by_cases h2 : isRefToDeprecatedSchema v ns = true
          · rw [if_pos h2]
            exact iht (fun x hx => ih x (List.mem_cons_of_mem _ hx)) hnd.2 hwfp.2
          · rw [if_neg h2]
            simp only [noBadPairPairs, Bool.and_eq_true]
            refine ⟨⟨?_, ?_⟩, iht (fun x hx => ih x (List.mem_cons_of_mem _ hx)) hnd.2 hwfp.2⟩
            · -- the kept value is still not a reference to a deprecated schema
              cases hb : isRefToDeprecatedSchema
                  (deleteDeprecated (stripDeprecated v ns)) ns with
              | false => rfl
              | true => exact absurd (isRef_of_strip v ns hwfp.1 hb) h2
            · exact noBadPair_delete ns _ (ih (k, v) (by simp) ns hwfp.1)

theorem noBadPairPairs_lookup (ns : List String) (ps : List (String × Doc))
    (k : String) (v : Doc) (h : noBadPairPairs ns ps = true)
    (hl : lookupKey ps k = some v) :
    isRefToDeprecatedSchema v ns = false ∧ noBadPair ns v = true := by
  induction ps with
  | nil => cases hl
  | cons kv t ih =>
    cases kv with
    | mk k0 v0 =>
      simp only [noBadPairPairs, Bool.and_eq_true, Bool.not_eq_true'] at h
      by_cases hk : k0 = k
      · simp only [lookupKey, if_pos hk] at hl
        cases hl
        exact ⟨h.1.1, h.1.2⟩
      · simp only [lookupKey, if_neg hk] at hl
        exact ih h.2 hl

theorem noBadPairPairs_setKey (ns : List String) (ps : List (String × Doc))
    (k : String) (v : Doc) (h : noBadPairPairs ns ps = true)
    (hv1 : isRefToDeprecatedSchema v ns = false) (hv2 : noBadPair ns v = true) :
    noBadPairPairs ns (setKey ps k v) = true := by
  induction ps with
  | nil => simp [setKey, noBadPairPairs, hv1, hv2]
  | cons kv t ih =>
    cases kv with
    | mk k0 v0 =>
      simp only [noBadPairPairs, Bool.and_eq_true, Bool.not_eq_true'] at h
      by_cases hk : k0 = k
      · simp only [setKey, if_pos hk, noBadPairPairs, Bool.and_eq_true,
          Bool.not_eq_true']
        exact ⟨⟨hv1, hv2⟩, h.2⟩
      · simp only [setKey, if_neg hk, noBadPairPairs, Bool.and_eq_true,
          Bool.not_eq_true']
        exact ⟨h.1, ih h.2⟩

theorem isRef_setKey (ps : List (String × Doc)) (k : String) (m : Doc)
    (ns : List String) (h1 : k ≠ "$ref") (h2 : k ≠ "type") (h3 : k ≠ "items") :
    isRefToDeprecatedSchema (.obj (setKey ps k m)) ns =
      isRefToDeprecatedSchema (.obj ps) ns := by
  unfold isRefToDeprecatedSchema
  dsimp only
  rw [lookupKey_setKey_ne ps k m "$ref" (fun hh => h1 hh.symm),
    lookupKey_setKey_ne ps k m "type" (fun hh => h2 hh.symm),
    lookupKey_setKey_ne ps k m "items" (fun hh => h3 hh.symm)]

theorem isRef_none_of_no_keys (ps : List (String × Doc)) (ns : List String)
    (h1 : lookupKey ps "$ref" = none) (h2 : lookupKey ps "type" = none) :
    isRefToDeprecatedSchema (.obj ps) ns = false := by
  unfold isRefToDeprecatedSchema
  dsimp only
  by_cases hns : ns.isEmpty = true
  · rw [if_pos hns]
  · rw [if_neg hns, h1, h2]
    rfl

theorem stampMetadata_noBadPair (ns : List String)
    (op xps out : List (String × Doc))
    (hop : noBadPairPairs ns op = true)
    (hxps : noBadPairPairs ns xps = true)
    (hxref : isRefToDeprecatedSchema (.obj xps) ns = false)
    (h : stampMetadata op xps = some out) :
    noBadPairPairs ns out = true := by
  have hfresh : ∀ m : Doc, isRefToDeprecatedSchema m ns = false →
      noBadPair ns m = true →
      noBadPairPairs ns
        (setKey op "x-mint" (.obj (setKey xps "metadata" m))) = true := by
    intro m hm1 hm2
    apply noBadPairPairs_setKey ns op "x-mint" _ hop
    · rw [isRef_setKey xps "metadata" m ns (by decide) (by decide) (by decide)]
      exact hxref
    · simp only [noBadPair]
      exact noBadPairPairs_setKey ns xps "metadata" m hxps hm1 hm2
  have hmodeobj : isRefToDeprecatedSchema (.obj [("mode", .str "wide")]) ns = false :=
    isRef_none_of_no_keys _ ns (by rfl) (by rfl)
  have hmodeobj2 : noBadPair ns (.obj [("mode", .str "wide")]) = true := by
    simp [noBadPair, noBadPairPairs, isRefToDeprecatedSchema]
  unfold stampMetadata at h
  cases hmd : lookupKey xps "metadata" with
  | none =>
    rw [hmd] at h
    cases h
    exact hfresh _ hmodeobj hmodeobj2
  | some mv =>
    rw [hmd] at h
    cases mv with
    | obj mps =>
      cases h
      have hm := noBadPairPairs_lookup ns xps "metadata" (.obj mps) hxps hmd
      refine hfresh _ ?_ ?_
      · rw [isRef_setKey mps "mode" _ ns (by decide) (by decide) (by decide)]
        exact hm.1
      · simp only [noBadPair]
        exact noBadPairPairs_setKey ns mps "mode" _
          (by simpa [noBadPair] using hm.2) (by rfl) (by rfl)
    | arr l => cases h; exact hop
    | null =>
      simp only [Doc.truthy] at h
      cases h
      exact hfresh _ hmodeobj hmodeobj2
    | bool b =>
      cases hb : b with
      | true => rw [hb] at h; simp only [Doc.truthy] at h; cases h; exact hop
      | false =>
        rw [hb] at h
        simp only [Doc.truthy] at h
        cases h
        exact hfresh _ hmodeobj hmodeobj2
    | num n =>
      by_cases hn : (n : Int) = 0
      · subst hn
        simp only [Doc.truthy] at h
        simp at h
        cases h
        exact hfresh _ hmodeobj hmodeobj2
      · simp only [Doc.truthy] at h
        rw [if_pos (by simpa using hn)] at h
        cases h
        exact hop
    | str s =>
      by_cases hs : s = ""
      · subst hs
        simp only [Doc.truthy] at h
        simp at h
        cases h
        exact hfresh _ hmodeobj hmodeobj2
      · simp only [Doc.truthy] at h
        rw [if_pos (by simpa using hs)] at h
        cases h
        exact hop

theorem stampOp_noBadPair (ns : List String) (op out : List (String × Doc))
    (hop : noBadPairPairs ns op = true)
    (hopref : isRefToDeprecatedSchema (.obj op) ns = false)
    (h : stampOp op = some out) : noBadPairPairs ns out = true := by
  have hset : noBadPairPairs ns (setKey op "x-mint" (.obj [])) = true := by
    apply noBadPairPairs_setKey ns op "x-mint" _ hop
    · exact isRef_none_of_no_keys _ ns (by rfl) (by rfl)
    · rfl
  have hsetref : isRefToDeprecatedSchema (.obj (setKey op "x-mint" (.obj []))) ns = false := by
    rw [isRef_setKey op "x-mint" _ ns (by decide) (by decide) (by decide)]
    exact hopref
  have hsetlk : ∀ m, stampMetadata (setKey op "x-mint" (.obj [])) [] = some m →
      noBadPairPairs ns m = true := fun m hm =>
    stampMetadata_noBadPair ns _ [] m hset (by rfl)
      (isRef_none_of_no_keys _ ns (by rfl) (by rfl)) hm
  unfold stampOp at h
  cases hxm : lookupKey op "x-mint" with
  | none =>
    rw [hxm] at h
    exact hsetlk out h
  | some xv =>
    rw [hxm] at h
    cases xv with
    | obj xps =>
      have hx := noBadPairPairs_lookup ns op "x-mint" (.obj xps) hop hxm
      exact stampMetadata_noBadPair ns op xps out hop
        (by simpa [noBadPair] using hx.2) hx.1 h
    | arr l => cases h; exact hop
    | null => simp only [Doc.truthy] at h; exact hsetlk out h
    | bool b =>
      cases hb : b with
      | true => rw [hb] at h; simp only [Doc.truthy] at h; cases h
      | false => rw [hb] at h; simp only [Doc.truthy] at h; exact hsetlk out h
    | num n =>
      by_cases hn : (n : Int) = 0
      · subst hn
        simp only [Doc.truthy] at h
        simp at h
        exact hsetlk out h
      · simp only [Doc.truthy] at h
        rw [if_pos (by simpa using hn)] at h
        cases h
    | str s =>
      by_cases hs : s = ""
      · subst hs
        simp only [Doc.truthy] at h
        simp at h
        exact hsetlk out h
      · simp only [Doc.truthy] at h
        rw [if_pos (by simpa using hs)] at h
        cases h

theorem setKey_setKey (l : List (String × Doc)) (k : String) (a b : Doc) :
    setKey (setKey l k a) k b = setKey l k b := by
  induction l with
  | nil => simp [setKey]
  | cons kv t ih =>
    cases kv with
    | mk k0 v0 =>
      by_cases hk : k0 = k
      · simp [setKey, hk]
      · simp [setKey, hk, ih]

theorem stampMetadata_shape (op xps m : List (String × Doc))
    (h : stampMetadata op xps = some m) :
    m = op ∨ ∃ d : Doc, m = setKey op "x-mint" d := by
  unfold stampMetadata at h
  cases hmd : lookupKey xps "metadata" with
  | none => rw [hmd] at h; cases h; exact Or.inr ⟨_, rfl⟩
  | some mv =>
    rw [hmd] at h
    cases mv with
    | obj mps => cases h; exact Or.inr ⟨_, rfl⟩
    | arr l => cases h; exact Or.inl rfl
    | null => simp only [Doc.truthy] at h; cases h; exact Or.inr ⟨_, rfl⟩
    | bool b =>
      cases hb : b with
      | true => rw [hb] at h; simp only [Doc.truthy] at h; cases h; exact Or.inl rfl
      | false =>
        rw [hb] at h
        simp only [Doc.truthy] at h
        cases h
        exact Or.inr ⟨_, rfl⟩
    | num n =>
      by_cases hn : (n : Int) = 0
      · subst hn
        simp only [Doc.truthy] at h
        simp at h
        cases h
        exact Or.inr ⟨_, rfl⟩
      · simp only [Doc.truthy] at h
        rw [if_pos (by simpa using hn)] at h
        cases h
        exact Or.inl rfl
    | str s =>
      by_cases hs : s = ""
      · subst hs
        simp only [Doc.truthy] at h
        simp at h
        cases h
        exact Or.inr ⟨_, rfl⟩
      · simp only [Doc.truthy] at h
        rw [if_pos (by simpa using hs)] at h
        cases h
        exact Or.inl rfl

theorem stampOp_shape (op out : List (String × Doc))
    (h : stampOp op = some out) :
    out = op ∨ ∃ d : Doc, out = setKey op "x-mint" d := by
  have hstep : ∀ m, stampMetadata (setKey op "x-mint" (.obj [])) [] = some m →
      m = op ∨ ∃ d : Doc, m = setKey op "x-mint" d := by
    intro m hm
    rcases stampMetadata_shape _ [] m hm with rfl | ⟨d, rfl⟩
    · exact Or.inr ⟨_, rfl⟩
    · exact Or.inr ⟨d, setKey_setKey op "x-mint" _ d⟩
  unfold stampOp at h
  cases hxm : lookupKey op "x-mint" with
  | none => rw [hxm] at h; exact hstep out h
  | some xv =>
    rw [hxm] at h
    cases xv with
    | obj xps => exact stampMetadata_shape op xps out h
    | arr l => cases h; exact Or.inl rfl
    | null => simp only [Doc.truthy] at h; exact hstep out h
    | bool b =>
      cases hb : b with
      | true => rw [hb] at h; simp only [Doc.truthy] at h; cases h
      | false => rw [hb] at h; simp only [Doc.truthy] at h; exact hstep out h
    | num n =>
      by_cases hn : (n : Int) = 0
      · subst hn
        simp only [Doc.truthy] at h
        simp at h
        exact hstep out h
      · simp only [Doc.truthy] at h
        rw [if_pos (by simpa using hn)] at h
        cases h
    | str s =>
      by_cases hs : s = ""
      · subst hs
        simp only [Doc.truthy] at h
        simp at h
        exact hstep out h
      · simp only [Doc.truthy] at h
        rw [if_pos (by simpa using hs)] at h
        cases h

theorem isRef_stampOp (ns : List String) (op out : List (String × Doc))
    (h : stampOp op = some out) :
    isRefToDeprecatedSchema (.obj out) ns = isRefToDeprecatedSchema (.obj op) ns := by
  rcases stampOp_shape op out h with rfl | ⟨d, rfl⟩
  · rfl
  · exact isRef_setKey op "x-mint" d ns (by decide) (by decide) (by decide)

theorem stampOpsInPathItem_lookup_not_method (ps out : List (String × Doc))
    (k : String) (hk : OPERATION_METHODS.contains k = false)
    (h : stampOpsInPathItem ps = some out) :
    lookupKey out k = lookupKey ps k := by
  induction ps generalizing out with
  | nil => simp only [stampOpsInPathItem] at h; cases h; rfl
  | cons kv t ih =>
    cases kv with
    | mk k0 v =>
      simp only [stampOpsInPathItem] at h
      cases hv : stampOpValue k0 v with
      | none => rw [hv] at h; cases h
      | some v' =>
        rw [hv] at h
        cases ht : stampOpsInPathItem t with
        | none => rw [ht] at h; cases h
        | some t' =>
          rw [ht] at h
          cases h
          by_cases hkk : k0 = k
          · subst hkk
            unfold stampOpValue at hv
            rw [hk] at hv
            simp at hv
            cases hv
            simp [lookupKey]
          · simp only [lookupKey, if_neg hkk]
            exact ih t' ht

theorem stampOpsInPathItem_noBadPair (ns : List String)
    (ps out : List (String × Doc)) (hps : noBadPairPairs ns ps = true)
    (h : stampOpsInPathItem ps = some out) : noBadPairPairs ns out = true := by
  induction ps generalizing out with
  | nil => simp only [stampOpsInPathItem] at h; cases h; rfl
  | cons kv t ih =>
    cases kv with
    | mk k0 v =>
      simp only [noBadPairPairs, Bool.and_eq_true, Bool.not_eq_true'] at hps
      simp only [stampOpsInPathItem] at h
      cases hv : stampOpValue k0 v with
      | none => rw [hv] at h; cases h
      | some v' =>
        rw [hv] at h
        cases ht : stampOpsInPathItem t with
        | none => rw [ht] at h; cases h
        | some t' =>
          rw [ht] at h
          cases h
          simp only [noBadPairPairs, Bool.and_eq_true, Bool.not_eq_true']
          refine ⟨?_, ih t' hps.2 ht⟩
          unfold stampOpValue at hv
          by_cases hm : OPERATION_METHODS.contains k0
          · rw [if_pos hm] at hv
            cases v with
            | obj ops =>
              dsimp only at hv
              cases hso : stampOp ops with
              | none => rw [hso] at hv; simp at hv
              | some ops' =>
                rw [hso] at hv
                simp at hv
                rw [← hv]
                constructor
                · rw [isRef_stampOp ns ops ops' hso]
                  exact hps.1.1
                · simp only [noBadPair]
                  exact stampOp_noBadPair ns ops ops'
                    (by simpa [noBadPair] using hps.1.2) hps.1.1 hso
            | null => cases hv; exact hps.1
            | bool b => cases hv; exact hps.1
            | num n => cases hv; exact hps.1
            | str s => cases hv; exact hps.1
            | arr l => cases hv; exact hps.1
          · rw [if_neg hm] at hv
            cases hv
            exact hps.1

theorem stampPathItem_noBadPair (ns : List String) (pi pi' : Doc)
    (hpi : noBadPair ns pi = true) (h : stampPathItem pi = some pi') :
    noBadPair ns pi' = true := by
  cases pi with
  | obj ps =>
    simp only [stampPathItem] at h
    cases hso : stampOpsInPathItem ps with
    | none => rw [hso] at h; simp at h
    | some out =>
      rw [hso] at h
      simp at h
      rw [← h]
      simp only [noBadPair] at hpi ⊢
      exact stampOpsInPathItem_noBadPair ns ps out hpi hso
  | null => cases h; exact hpi
  | bool b => cases h; exact hpi
  | num n => cases h; exact hpi
  | str s => cases h; exact hpi
  | arr l => cases h; exact hpi

theorem stampPathItem_isRef (ns : List String) (pi pi' : Doc)
    (h : stampPathItem pi = some pi') :
    isRefToDeprecatedSchema pi' ns = isRefToDeprecatedSchema pi ns := by
  cases pi with
  | obj ps =>
    simp only [stampPathItem] at h
    cases hso : stampOpsInPathItem ps with
    | none => rw [hso] at h; simp at h
    | some out =>
      rw [hso] at h
      simp at h
      rw [← h]
      unfold isRefToDeprecatedSchema
      dsimp only
      rw [stampOpsInPathItem_lookup_not_method ps out "$ref" (by decide) hso,
        stampOpsInPathItem_lookup_not_method ps out "type" (by decide) hso,
        stampOpsInPathItem_lookup_not_method ps out "items" (by decide) hso]
  | null => cases h; rfl
  | bool b => cases h; rfl
  | num n => cases h; rfl
  | str s => cases h; rfl
  | arr l => cases h; rfl

theorem stampPathValues_lookup_some (pls out : List (String × Doc))
    (k : String) (v : Doc) (h : stampPathValues pls = some out)
    (hl : lookupKey pls k = some v) :
    ∃ v', stampPathItem v = some v' ∧ lookupKey out k = some v' := by
  induction pls generalizing out with
  | nil => cases hl
  | cons kv t ih =>
    cases kv with
    | mk k0 v0 =>
      simp only [stampPathValues] at h
      cases hv : stampPathItem v0 with
      | none => rw [hv] at h; cases h
      | some v0' =>
        rw [hv] at h
        cases ht : stampPathValues t with
        | none => rw [ht] at h; cases h
        | some t' =>
          rw [ht] at h
          cases h
          by_cases hk : k0 = k
          · simp only [lookupKey, if_pos hk] at hl
            cases hl
            exact ⟨v0', hv, by simp [lookupKey, hk]⟩
          · simp only [lookupKey, if_neg hk] at hl ⊢
            exact ih t' ht hl

theorem stampPathValues_noBadPair (ns : List String)
    (pls out : List (String × Doc)) (hpls : noBadPairPairs ns pls = true)
    (h : stampPathValues pls = some out) : noBadPairPairs ns out = true := by
  induction pls generalizing out with
  | nil => simp only [stampPathValues] at h; cases h; rfl
  | cons kv t ih =>
    cases kv with
    | mk k0 v =>
      simp only [noBadPairPairs, Bool.and_eq_true, Bool.not_eq_true'] at hpls
      simp only [stampPathValues] at h
      cases hv : stampPathItem v with
      | none => rw [hv] at h; cases h
      | some v' =>
        rw [hv] at h
        cases ht : stampPathValues t with
        | none => rw [ht] at h; cases h
        | some t' =>
          rw [ht] at h
          cases h
          simp only [noBadPairPairs, Bool.and_eq_true, Bool.not_eq_true']
          refine ⟨⟨?_, stampPathItem_noBadPair ns v v' hpls.1.2 hv⟩, ih t' hpls.2 ht⟩
          rw [stampPathItem_isRef ns v v' hv]
          exact hpls.1.1

theorem stampPathElems_noBadPair (ns : List String) (l out : List Doc)
    (hl : noBadPairList ns l = true) (h : stampPathElems l = some out) :
    noBadPairList ns out = true := by
  induction l generalizing out with
  | nil => simp only [stampPathElems] at h; cases h; rfl
  | cons v t ih =>
    simp only [noBadPairList, Bool.and_eq_true] at hl
    simp only [stampPathElems] at h
    cases hv : stampPathItem v with
    | none => rw [hv] at h; cases h
    | some v' =>
      rw [hv] at h
      cases ht : stampPathElems t with
      | none => rw [ht] at h; cases h
      | some t' =>
        rw [ht] at h
        cases h
        simp only [noBadPairList, Bool.and_eq_true]
        exact ⟨stampPathItem_noBadPair ns v v' hl.1 hv, ih t' hl.2 ht⟩

theorem stampPathValues_isRef (ns : List String)
    (pls out : List (String × Doc)) (h : stampPathValues pls = some out)
    (href : isRefToDeprecatedSchema (.obj pls) ns = false) :
    isRefToDeprecatedSchema (.obj out) ns = false := by
  cases hout : isRefToDeprecatedSchema (.obj out) ns with
  | false => rfl
  | true =>
    exfalso
    obtain ⟨hns, hcases⟩ := isRef_obj_elim out ns hout
    rcases hcases with ⟨r, n, hr, hg, hc⟩ | ⟨items, r, n, ht, hi, hobj, hrf, htr, hg, hc⟩
    · -- a direct `$ref` in the stamped paths object came from the original
      -- the stamped value at `$ref` is the stamp of the original value
      have hsrc : ∃ v0, lookupKey pls "$ref" = some v0 := by
        cases hv0 : lookupKey pls "$ref" with
        | none =>
          have := stampPathValues_lookup_isNone pls out "$ref" h
          rw [hr, hv0] at this
          simp at this
        | some v0 => exact ⟨v0, rfl⟩
      obtain ⟨v0, hv0⟩ := hsrc
      obtain ⟨v', hstamp, hlk⟩ := stampPathValues_lookup_some pls out "$ref" v0 h hv0
      rw [hr] at hlk
      cases hlk
      -- the stamped value is the string, so the original was the same string
      have hv0s : v0 = .str r := by
        cases v0 with
        | obj ps2 =>
          simp only [stampPathItem] at hstamp
          cases hso : stampOpsInPathItem ps2 with
          | none => rw [hso] at hstamp; simp at hstamp
          | some o2 => rw [hso] at hstamp; simp at hstamp
        | str s => cases hstamp; rfl
        | null => cases hstamp
        | bool b => cases hstamp
        | num m => cases hstamp
        | arr l2 => cases hstamp
      rw [hv0s] at hv0
      rw [isRef_obj_intro_direct pls ns r n hns hv0 hg hc] at href
      cases href
    · -- an array-items `$ref` in the stamped paths object came from the original
      have hsrc : ∃ v0, lookupKey pls "type" = some v0 := by
        cases hv0 : lookupKey pls "type" with
        | none =>
          have := stampPathValues_lookup_isNone pls out "type" h
          rw [ht, hv0] at this
          simp at this
        | some v0 => exact ⟨v0, rfl⟩
      obtain ⟨t0, ht0⟩ := hsrc
      obtain ⟨t', hstampt, hlkt⟩ := stampPathValues_lookup_some pls out "type" t0 h ht0
      rw [ht] at hlkt
      cases hlkt
      have ht0s : t0 = .str "array" := by
        cases t0 with
        | obj ps2 =>
          simp only [stampPathItem] at hstampt
          cases hso : stampOpsInPathItem ps2 with
          | none => rw [hso] at hstampt; simp at hstampt
          | some o2 => rw [hso] at hstampt; simp at hstampt
        | str s => cases hstampt; rfl
        | null => cases hstampt
        | bool b => cases hstampt
        | num m => cases hstampt
        | arr l2 => cases hstampt
      have hsrci : ∃ v0, lookupKey pls "items" = some v0 := by
        cases hv0 : lookupKey pls "items" with
        | none =>
          have := stampPathValues_lookup_isNone pls out "items" h
          rw [hi, hv0] at this
          simp at this
        | some v0 => exact ⟨v0, rfl⟩
      obtain ⟨i0, hi0⟩ := hsrci
      obtain ⟨i', hstampi, hlki⟩ := stampPathValues_lookup_some pls out "items" i0 h hi0
      rw [hi] at hlki
      cases hlki
      -- `items` must be an object carrying the `$ref` string
      cases hio : items with
      | obj qs =>
        rw [hio] at hstampi hrf
        have : ∃ ps2, i0 = .obj ps2 ∧ stampOpsInPathItem ps2 = some qs := by
          cases i0 with
          | obj ps2 =>
            simp only [stampPathItem] at hstampi
            cases hso : stampOpsInPathItem ps2 with
            | none => rw [hso] at hstampi; simp at hstampi
            | some o2 =>
              rw [hso] at hstampi
              simp at hstampi
              exact ⟨ps2, rfl, by rw [hso, hstampi]⟩
          | null => cases hstampi
          | bool b => cases hstampi
          | num m => cases hstampi
          | str s => cases hstampi
          | arr l2 => cases hstampi
        obtain ⟨ps2, rfl, hso⟩ := this
        simp only [Doc.jsGet] at hrf
        rw [stampOpsInPathItem_lookup_not_method ps2 qs "$ref" (by decide) hso] at hrf
        rw [isRef_obj_intro_items pls ns (.obj ps2) r n hns (ht0s ▸ ht0) hi0 rfl
          (by simpa [Doc.jsGet] using hrf) htr hg hc] at href
        cases href
      | arr l2 =>
        rw [hio] at hrf
        simp [Doc.jsGet] at hrf
      | null => rw [hio] at hobj; simp [Doc.isObjLike] at hobj
      | bool b => rw [hio] at hobj; simp [Doc.isObjLike] at hobj
      | num m => rw [hio] at hobj; simp [Doc.isObjLike] at hobj
      | str s => rw [hio] at hobj; simp [Doc.isObjLike] at hobj

theorem ensure_noBadPair (ns : List String) (d out : Doc)
    (hd : noBadPair ns d = true) (h : ensureWideMode d = some out) :
    noBadPair ns out = true := by
  cases d with
  | null => cases h
  | obj ps =>
    simp only [ensureWideMode] at h
    cases hps : lookupKey ps "paths" with
    | none => simp only [hps] at h; cases h; exact hd
    | some pv =>
      simp only [hps] at h
      simp only [noBadPair] at hd
      cases pv with
      | obj pls =>
        cases hsv : stampPathValues pls with
        | none => simp only [hsv] at h; simp at h
        | some pls' =>
          simp only [hsv] at h
          simp at h
          rw [← h]
          simp only [noBadPair]
          have hfacts := noBadPairPairs_lookup ns ps "paths" (.obj pls) hd hps
          apply noBadPairPairs_setKey ns ps "paths" _ hd
          · exact stampPathValues_isRef ns pls pls' hsv hfacts.1
          · simp only [noBadPair]
            exact stampPathValues_noBadPair ns pls pls'
              (by simpa [noBadPair] using hfacts.2) hsv
      | arr l =>
        cases hsv : stampPathElems l with
        | none => simp only [hsv] at h; simp at h
        | some l' =>
          simp only [hsv] at h
          simp at h
          rw [← h]
          simp only [noBadPair]
          have hfacts := noBadPairPairs_lookup ns ps "paths" (.arr l) hd hps
          apply noBadPairPairs_setKey ns ps "paths" _ hd
          · rfl
          · simp only [noBadPair]
            exact stampPathElems_noBadPair ns l l'
              (by simpa [noBadPair] using hfacts.2) hsv
      | null => cases h; exact hd
      | bool b => cases h; exact hd
      | num n => cases h; exact hd
      | str s => cases h; exact hd
  | bool b => cases h; exact hd
  | num n => cases h; exact hd
  | str s => cases h; exact hd
  | arr l => cases h; exact hd

/-- Claim C1: for every well-formed input document (no mapping has
duplicate keys, as is automatic for JavaScript objects), every mapping
entry of the Filter's output whose value is a mapping carrying a direct
`$ref` to a schema name in the deprecated set — or a mapping with
`type: "array"` whose `items` carry such a `$ref` — is absent: the
output satisfies `noBadPair` for the deprecated-schema set computed
from the input, so every such pair was dropped without recursion. -/
theorem C1_no_deprecated_refs (d out : Doc) (hwf : d.WF = true)
    (h : filterDoc d = some out) :
    noBadPair (buildDeprecatedSchemaNames d) out = true :=
  ensure_noBadPair (buildDeprecatedSchemaNames d) _ out
    (strip_noBadPair d (buildDeprecatedSchemaNames d) hwf) h

/-- Claim C1 witness: a document with a deprecated schema `Old`, a
property `$ref`-ing it directly and another referencing it as array
items; the Filter output contains neither pair. -/
theorem C1_witness :
    (Doc.WF (.obj [("components", .obj [("schemas", .obj [
        ("Old", .obj [("deprecated", .bool true), ("type", .str "object")]),
        ("New", .obj [("type", .str "object"), ("properties", .obj [
          ("a", .obj [("$ref", .str "#/components/schemas/Old")]),
          ("b", .obj [("type", .str "array"),
            ("items", .obj [("$ref", .str "#/components/schemas/Old")])]),
          ("c", .obj [("type", .str "string")])])])])])]) = true) ∧
    noBadPair ["Old"]
      (.obj [("components", .obj [("schemas", .obj [
        ("New", .obj [("type", .str "object"), ("properties", .obj [
          ("c", .obj [("type", .str "string")])])])])])]) = true := by
  refine ⟨by decide, ?_⟩
  have hb : buildDeprecatedSchemaNames (.obj [("components", .obj [("schemas",
      .obj [
        ("Old", .obj [("deprecated", .bool true), ("type", .str "object")]),
        ("New", .obj [("type", .str "object"), ("properties", .obj [
          ("a", .obj [("$ref", .str "#/components/schemas/Old")]),
          ("b", .obj [("type", .str "array"),
            ("items", .obj [("$ref", .str "#/components/schemas/Old")])]),
          ("c", .obj [("type", .str "string")])])])])])]) = ["Old"] := by
    decide
  rw [← hb]
  exact C1_no_deprecated_refs _ _ (by decide) (by decide)

/-!
### Claim C9: wide-mode stamping of operations
-/

/-- The `metadata` entry of a pre-existing `x-mint` mapping is one the
stamping handles: absent, a mapping, or a falsy scalar.  A
sequence-valued or truthy-scalar `metadata` makes the source's write
a silent no-op (see `stampMetadata`). -/
def goodMeta (xps : List (String × Doc)) : Bool :=
  match lookupKey xps "metadata" with
  | none => true
  | some (.obj _) => true
  | some (.arr _) => false
  | some v => !v.truthy

/-- The `x-mint` entry of an operation is one the stamping handles:
absent, a falsy scalar, or a mapping whose `metadata` is good.  A
truthy-scalar `x-mint` crashes the source and a sequence-valued one
is a silent no-op (see `stampOp`). -/
def goodOp (op : List (String × Doc)) : Bool :=
  match lookupKey op "x-mint" with
  | none => true
  | some (.obj xps) => goodMeta xps
  | some (.arr _) => false
  | some v => !v.truthy

theorem stamp_result_good (op xps : List (String × Doc)) (mval : Doc)
    (hmode : mval.jsGet "mode" = some (.str "wide")) :
    opWide (.obj (setKey op "x-mint" (.obj (setKey xps "metadata" mval)))) = true ∧
    (∀ k2, k2 ≠ "x-mint" →
      lookupKey (setKey op "x-mint" (.obj (setKey xps "metadata" mval))) k2 =
        lookupKey op k2) ∧
    lookupKey (setKey op "x-mint" (.obj (setKey xps "metadata" mval))) "x-mint" =
      some (.obj (setKey xps "metadata" mval)) ∧
    (∀ k2, k2 ≠ "metadata" →
      lookupKey (setKey xps "metadata" mval) k2 = lookupKey xps k2) ∧
    lookupKey (setKey xps "metadata" mval) "metadata" = some mval := by
  refine ⟨?_, fun k2 hk2 => lookupKey_setKey_ne op "x-mint" _ k2 hk2,
    lookupKey_setKey_self op "x-mint" _,
    fun k2 hk2 => lookupKey_setKey_ne xps "metadata" _ k2 hk2,
    lookupKey_setKey_self xps "metadata" _⟩
  simp only [opWide, decide_eq_true_iff]
  have e1 : (Doc.obj (setKey op "x-mint" (.obj (setKey xps "metadata" mval)))).jsGet
      "x-mint" = some (.obj (setKey xps "metadata" mval)) :=
    lookupKey_setKey_self op "x-mint" _
  rw [e1]
  have e2 : Doc.jsGetOpt (some (Doc.obj (setKey xps "metadata" mval))) "metadata" =
      some mval := lookupKey_setKey_self xps "metadata" mval
  rw [e2]
  exact hmode

theorem stampMetadata_good (op xps m : List (String × Doc))
    (hg : goodMeta xps = true) (h : stampMetadata op xps = some m) :
    opWide (.obj m) = true ∧
    (∀ k2, k2 ≠ "x-mint" → lookupKey m k2 = lookupKey op k2) ∧
    ∃ xps', lookupKey m "x-mint" = some (.obj xps') ∧
      (∀ k2, k2 ≠ "metadata" → lookupKey xps' k2 = lookupKey xps k2) ∧
      (∀ mps, lookupKey xps "metadata" = some (.obj mps) →
        ∃ mps', lookupKey xps' "metadata" = some (.obj mps') ∧
          ∀ k2, k2 ≠ "mode" → lookupKey mps' k2 = lookupKey mps k2) := by
  unfold goodMeta at hg
  unfold stampMetadata at h
  cases hmd : lookupKey xps "metadata" with
  | none =>
    rw [hmd] at h
    cases h
    obtain ⟨h1, h2, h3, h4, _⟩ :=
      stamp_result_good op xps (.obj [("mode", .str "wide")]) rfl
    refine ⟨h1, h2, _, h3, h4, fun mps hmps => ?_⟩
    cases hmps
  | some mv =>
    rw [hmd] at h hg
    cases mv with
    | obj mps0 =>
      cases h
      obtain ⟨h1, h2, h3, h4, h5⟩ :=
        stamp_result_good op xps (.obj (setKey mps0 "mode" (.str "wide")))
          (lookupKey_setKey_self mps0 "mode" _)
      refine ⟨h1, h2, _, h3, h4, fun mps hmps => ?_⟩
      cases hmps
      exact ⟨setKey mps0 "mode" (.str "wide"), h5,
        fun k2 hk2 => lookupKey_setKey_ne mps0 "mode" _ k2 hk2⟩
    | arr l => cases hg
    | null =>
      simp only [Doc.truthy] at h
      cases h
      obtain ⟨h1, h2, h3, h4, _⟩ :=
        stamp_result_good op xps (.obj [("mode", .str "wide")]) rfl
      refine ⟨h1, h2, _, h3, h4, fun mps hmps => ?_⟩
      cases hmps
    | bool b =>
      dsimp only at hg
      simp only [Bool.not_eq_true'] at hg
      dsimp only at h
      rw [if_neg (by rw [hg]; exact Bool.false_ne_true)] at h
      cases h
      obtain ⟨h1, h2, h3, h4, _⟩ :=
        stamp_result_good op xps (.obj [("mode", .str "wide")]) rfl
      refine ⟨h1, h2, _, h3, h4, fun mps hmps => ?_⟩
      cases hmps
    | num n =>
      dsimp only at hg
      simp only [Bool.not_eq_true'] at hg
      dsimp only at h
      rw [if_neg (by rw [hg]; exact Bool.false_ne_true)] at h
      cases h
      obtain ⟨h1, h2, h3, h4, _⟩ :=
        stamp_result_good op xps (.obj [("mode", .str "wide")]) rfl
      refine ⟨h1, h2, _, h3, h4, fun mps hmps => ?_⟩
      cases hmps
    | str s =>
      dsimp only at hg
      simp only [Bool.not_eq_true'] at hg
      dsimp only at h
      rw [if_neg (by rw [hg]; exact Bool.false_ne_true)] at h
      cases h
      obtain ⟨h1, h2, h3, h4, _⟩ :=
        stamp_result_good op xps (.obj [("mode", .str "wide")]) rfl
      refine ⟨h1, h2, _, h3, h4, fun mps hmps => ?_⟩
      cases hmps

theorem stampOp_good (op out : List (String × Doc))
    (hg : goodOp op = true) (h : stampOp op = some out) :
    opWide (.obj out) = true ∧
    (∀ k2, k2 ≠ "x-mint" → lookupKey out k2 = lookupKey op k2) ∧
    (∀ xps, lookupKey op "x-mint" = some (.obj xps) →
      ∃ xps', lookupKey out "x-mint" = some (.obj xps') ∧
        (∀ k2, k2 ≠ "metadata" → lookupKey xps' k2 = lookupKey xps k2) ∧
        (∀ mps, lookupKey xps "metadata" = some (.obj mps) →
          ∃ mps', lookupKey xps' "metadata" = some (.obj mps') ∧
            ∀ k2, k2 ≠ "mode" → lookupKey mps' k2 = lookupKey mps k2)) := by
  have hfresh : ∀ m, stampMetadata (setKey op "x-mint" (.obj [])) [] = some m →
      opWide (.obj m) = true ∧
      (∀ k2, k2 ≠ "x-mint" → lookupKey m k2 = lookupKey op k2) := by
    intro m hm
    obtain ⟨h1, h2, _⟩ := stampMetadata_good _ [] m rfl hm
    refine ⟨h1, fun k2 hk2 => ?_⟩
    rw [h2 k2 hk2]
    exact lookupKey_setKey_ne op "x-mint" _ k2 hk2
  unfold goodOp at hg
  unfold stampOp at h
  cases hxm : lookupKey op "x-mint" with
  | none =>
    rw [hxm] at h
    obtain ⟨h1, h2⟩ := hfresh out h
    exact ⟨h1, h2, fun xps hxps => by cases hxps⟩
  | some xv =>
    rw [hxm] at h hg
    cases xv with
    | obj xps0 =>
      obtain ⟨h1, h2, xps', h3, h4, h5⟩ := stampMetadata_good op xps0 out hg h
      refine ⟨h1, h2, fun xps hxps => ?_⟩
      cases hxps
      exact ⟨xps', h3, h4, h5⟩
    | arr l => cases hg
    | null =>
      simp only [Doc.truthy] at h
      obtain ⟨h1, h2⟩ := hfresh out h
      exact ⟨h1, h2, fun xps hxps => by cases hxps⟩
    | bool b =>
      dsimp only at hg h
      simp only [Bool.not_eq_true'] at hg
      rw [if_neg (by rw [hg]; exact Bool.false_ne_true)] at h
      obtain ⟨h1, h2⟩ := hfresh out h
      exact ⟨h1, h2, fun xps hxps => by cases hxps⟩
    | num n =>
      dsimp only at hg h
      simp only [Bool.not_eq_true'] at hg
      rw [if_neg (by rw [hg]; exact Bool.false_ne_true)] at h
      obtain ⟨h1, h2⟩ := hfresh out h
      exact ⟨h1, h2, fun xps hxps => by cases hxps⟩
    | str s =>
      dsimp only at hg h
      simp only [Bool.not_eq_true'] at hg
      rw [if_neg (by rw [hg]; exact Bool.false_ne_true)] at h
      obtain ⟨h1, h2⟩ := hfresh out h
      exact ⟨h1, h2, fun xps hxps => by cases hxps⟩

theorem stampOpsInPathItem_lookup_some (ps out : List (String × Doc))
    (k : String) (v : Doc) (h : stampOpsInPathItem ps = some out)
    (hl : lookupKey ps k = some v) :
    ∃ v', stampOpValue k v = some v' ∧ lookupKey out k = some v' := by
  induction ps generalizing out with
  | nil => cases hl
  | cons kv t ih =>
    cases kv with
    | mk k0 v0 =>
      simp only [stampOpsInPathItem] at h
      cases hv : stampOpValue k0 v0 with
      | none => rw [hv] at h; cases h
      | some v0' =>
        rw [hv] at h
        cases ht : stampOpsInPathItem t with
        | none => rw [ht] at h; cases h
        | some t' =>
          rw [ht] at h
          cases h
          by_cases hk : k0 = k
          · subst hk
            simp only [lookupKey, if_pos rfl] at hl ⊢
            cases hl
            exact ⟨v0', hv, rfl⟩
          · simp only [lookupKey, if_neg hk] at hl ⊢
            exact ih t' ht hl

/-- Claim C9 (amended): after the Filter's stamping pass, every
recognized operation mapping of every path item whose pre-existing
`x-mint` (and, when `x-mint` is a mapping, its `metadata`) is absent,
a falsy scalar, or a mapping — the `goodOp` guard — ends up with
`x-mint.metadata.mode` equal to `"wide"`, with intermediate mappings
created when absent and all other keys of the operation, of a
pre-existing `x-mint` mapping, and of a pre-existing `metadata`
mapping unchanged.  (The original claim omitted the guard: a
sequence-valued or truthy-scalar `x-mint` or `metadata` is a silent
no-op or a crash, see the counterexample.) -/
theorem C9_wide_mode_stamping (d out : Doc)
    (pls pi op : List (String × Doc)) (p k : String)
    (h : ensureWideMode d = some out)
    (hpaths : d.jsGet "paths" = some (.obj pls))
    (hpi : lookupKey pls p = some (.obj pi))
    (hk : OPERATION_METHODS.contains k = true)
    (hop : lookupKey pi k = some (.obj op))
    (hg : goodOp op = true) :
    ∃ pls' pi' op',
      out.jsGet "paths" = some (.obj pls') ∧
      lookupKey pls' p = some (.obj pi') ∧
      lookupKey pi' k = some (.obj op') ∧
      opWide (.obj op') = true ∧
      (∀ k2, k2 ≠ "x-mint" → lookupKey op' k2 = lookupKey op k2) ∧
      (∀ xps, lookupKey op "x-mint" = some (.obj xps) →
        ∃ xps', lookupKey op' "x-mint" = some (.obj xps') ∧
          (∀ k2, k2 ≠ "metadata" → lookupKey xps' k2 = lookupKey xps k2) ∧
          (∀ mps, lookupKey xps "metadata" = some (.obj mps) →
            ∃ mps', lookupKey xps' "metadata" = some (.obj mps') ∧
              ∀ k2, k2 ≠ "mode" → lookupKey mps' k2 = lookupKey mps k2)) := by
  cases d with
  | null => cases hpaths
  | bool b => cases hpaths
  | num n => cases hpaths
  | str s => cases hpaths
  | arr l => cases hpaths
  | obj ps =>
    simp only [Doc.jsGet] at hpaths
    simp only [ensureWideMode, hpaths] at h
    cases hsv : stampPathValues pls with
    | none => rw [hsv] at h; simp at h
    | some pls'' =>
      rw [hsv] at h
      simp at h
      obtain ⟨v', hsp, hlk⟩ := stampPathValues_lookup_some pls pls'' p (.obj pi) hsv hpi
      simp only [stampPathItem] at hsp
      cases hso : stampOpsInPathItem pi with
      | none => rw [hso] at hsp; simp at hsp
      | some pi' =>
        rw [hso] at hsp
        simp at hsp
        obtain ⟨v2, hsv2, hlk2⟩ :=
          stampOpsInPathItem_lookup_some pi pi' k (.obj op) hso hop
        simp only [stampOpValue] at hsv2
        rw [if_pos hk] at hsv2
        cases hsop : stampOp op with
        | none => rw [hsop] at hsv2; simp at hsv2
        | some op' =>
          rw [hsop] at hsv2
          simp at hsv2
          obtain ⟨h1, h2, h3⟩ := stampOp_good op op' hg hsop
          refine ⟨pls'', pi', op', ?_, ?_, ?_, h1, h2, h3⟩
          · rw [← h]
            simp only [Doc.jsGet]
            exact lookupKey_setKey_self ps "paths" _
          · rw [← hsp] at hlk
            exact hlk
          · rw [← hsv2] at hlk2
            exact hlk2

/-- Claim C9 witness: a concrete document with one path item whose
`get` operation carries a pre-existing `x-mint` mapping with an extra
key and a `metadata` mapping with an extra key; the stamping sets
`mode: "wide"` and preserves everything else. -/
theorem C9_witness :
    (goodOp [("summary", .str "s"), ("x-mint", .obj [("keep", .bool true),
      ("metadata", .obj [("note", .str "n")])])] = true) ∧
    (OPERATION_METHODS.contains "get" = true) ∧
    (∃ pls' pi' op',
      (Doc.obj [("paths", .obj [("/a", .obj [("get", .obj [("summary", .str "s"),
        ("x-mint", .obj [("keep", .bool true), ("metadata",
          .obj [("note", .str "n"), ("mode", .str "wide")])])]),
        ("x-extra", .str "e")])])]).jsGet "paths" = some (.obj pls') ∧
      lookupKey pls' "/a" = some (.obj pi') ∧
      lookupKey pi' "get" = some (.obj op') ∧
      opWide (.obj op') = true ∧
      (∀ k2, k2 ≠ "x-mint" → lookupKey op' k2 =
        lookupKey [("summary", .str "s"), ("x-mint", .obj [("keep", .bool true),
          ("metadata", .obj [("note", .str "n")])])] k2) ∧
      (∀ xps, lookupKey [("summary", .str "s"), ("x-mint",
          .obj [("keep", .bool true), ("metadata", .obj [("note", .str "n")])])]
          "x-mint" = some (.obj xps) →
        ∃ xps', lookupKey op' "x-mint" = some (.obj xps') ∧
          (∀ k2, k2 ≠ "metadata" → lookupKey xps' k2 = lookupKey xps k2) ∧
          (∀ mps, lookupKey xps "metadata" = some (.obj mps) →
            ∃ mps', lookupKey xps' "metadata" = some (.obj mps') ∧
              ∀ k2, k2 ≠ "mode" → lookupKey mps' k2 = lookupKey mps k2))) :=
  ⟨by decide, by decide,
    C9_wide_mode_stamping
      (.obj [("paths", .obj [("/a", .obj [("get", .obj [("summary", .str "s"),
        ("x-mint", .obj [("keep", .bool true), ("metadata",
          .obj [("note", .str "n")])])]), ("x-extra", .str "e")])])])
      (.obj [("paths", .obj [("/a", .obj [("get", .obj [("summary", .str "s"),
        ("x-mint", .obj [("keep", .bool true), ("metadata",
          .obj [("note", .str "n"), ("mode", .str "wide")])])]),
        ("x-extra", .str "e")])])])
      [("/a", .obj [("get", .obj [("summary", .str "s"),
        ("x-mint", .obj [("keep", .bool true), ("metadata",
          .obj [("note", .str "n")])])]), ("x-extra", .str "e")])]
      [("get", .obj [("summary", .str "s"), ("x-mint",
        .obj [("keep", .bool true), ("metadata", .obj [("note", .str "n")])])]),
        ("x-extra", .str "e")]
      [("summary", .str "s"), ("x-mint", .obj [("keep", .bool true),
        ("metadata", .obj [("note", .str "n")])])]
      "/a" "get" (by decide) (by decide) (by decide) (by decide) (by decide)
      (by decide)⟩

/-- Claim C8 witness: a concrete spec with one schema `A`; requesting
`["A", "Missing"]` yields the not-found marker for `Missing` and the
same output for `A` as a batch without `Missing`. -/
theorem C8_witness :
    ((Doc.obj [("components", .obj [("schemas", .obj [("A",
        .obj [("type", .str "string")])])])]) ≠ .null) ∧
    (Doc.jsGetOpt (Doc.jsGetOpt ((Doc.obj [("components", .obj [("schemas",
        .obj [("A", .obj [("type", .str "string")])])])]).jsGet "components")
        "schemas") "Missing" = none) ∧
    (schemaToMintlify 10 (.obj [("components", .obj [("schemas", .obj [("A",
        .obj [("type", .str "string")])])])]) "Missing" =
      some ("<!-- Schema not found: " ++ "Missing" ++ " -->\n") ∧
    renderBatch 10 (.obj [("components", .obj [("schemas", .obj [("A",
        .obj [("type", .str "string")])])])])
        (["A", "Missing"].filter (fun m => m ≠ "Missing")) =
      (renderBatch 10 (.obj [("components", .obj [("schemas", .obj [("A",
        .obj [("type", .str "string")])])])]) ["A", "Missing"]).filter
        (fun p => p.1 ≠ "Missing")) :=
  ⟨by decide, by decide,
    C8_missing_schema 10
      (.obj [("components", .obj [("schemas", .obj [("A",
        .obj [("type", .str "string")])])])]) ["A", "Missing"] "Missing"
      (by decide) (by decide)⟩

/-!
### Claim C6: property order and required flags
-/

theorem renderProp_head (fuel : Nat) (spec : Doc) (requiredList : List Doc)
    (propName : String) (propSchema : Doc) (indent : String) (block : List String)
    (h : renderProp fuel spec requiredList propName propSchema indent = some block) :
    ∃ ts rest, block =
      (indent ++ "<ResponseField name=\"" ++ propName ++ "\"" ++ typeAttr ts ++
        requiredAttr (requiredList.contains (.str propName)) ++ ">") :: rest := by
  cases fuel with
  | zero => cases h
  | succ f =>
    simp only [renderProp] at h
    repeat' split at h
    all_goals cases h
    all_goals exact ⟨_, _, rfl⟩

theorem renderProps_blocks (entries : List (String × Doc)) :
    ∀ (fuel : Nat) (spec : Doc) (requiredList : List Doc) (indent : String)
      (lines : List String),
      renderProps fuel spec requiredList entries indent = some lines →
      ∃ blocks : List (List String), lines = blocks.join ∧
        List.Forall₂ (fun (kv : String × Doc) (block : List String) =>
          ∃ ts rest, block =
            (indent ++ "<ResponseField name=\"" ++ kv.1 ++ "\"" ++ typeAttr ts ++
              requiredAttr (requiredList.contains (.str kv.1)) ++ ">") :: rest)
          entries blocks := by
  induction entries with
  | nil =>
    intro fuel spec requiredList indent lines h
    cases fuel with
    | zero => cases h
    | succ f =>
      simp only [renderProps] at h
      cases h
      exact ⟨[], rfl, List.Forall₂.nil⟩
  | cons kv t ih =>
    intro fuel spec requiredList indent lines h
    cases fuel with
    | zero => cases h
    | succ f =>
      cases kv with
      | mk pn ps =>
        simp only [renderProps] at h
        cases hb : renderProp f spec requiredList pn ps indent with
        | none => rw [hb] at h; cases h
        | some b =>
          rw [hb] at h
          cases hr : renderProps f spec requiredList t indent with
          | none => rw [hr] at h; cases h
          | some r =>
            rw [hr] at h
            cases h
            obtain ⟨blocks, rfl, hfa⟩ := ih f spec requiredList indent r hr
            obtain ⟨ts, rest, rfl⟩ := renderProp_head f spec requiredList pn ps indent b hb
            exact ⟨_ :: blocks, rfl, List.Forall₂.cons ⟨ts, rest, rfl⟩ hfa⟩

/-- Claim C6: for an object schema (resolving to a mapping with
declared type `"object"`, a `properties` mapping, and a sequence
`required`), the renderer emits exactly one block of lines per
declared property, in declaration order, and each block opens with a
`<ResponseField>` line naming the property that carries the
` required` attribute exactly when the property's name occurs in the
schema's `required` sequence. -/
theorem C6_property_order_required (fuel : Nat) (spec schema : Doc)
    (sps pl : List (String × Doc)) (reqL : List Doc)
    (name indent : String) (out : String)
    (hres : resolveSchema spec schema = .obj sps)
    (htype : lookupKey sps "type" = some (.str "object"))
    (hprops : lookupKey sps "properties" = some (.obj pl))
    (hreq : lookupKey sps "required" = some (.arr reqL))
    (h : schemaToExpandableContent fuel spec schema name indent = some out) :
    ∃ (lines : List String) (blocks : List (List String)),
      out = joinNl lines ∧ lines = blocks.join ∧
      List.Forall₂ (fun (kv : String × Doc) (block : List String) =>
        ∃ ts rest, block =
          (indent ++ "<ResponseField name=\"" ++ kv.1 ++ "\"" ++ typeAttr ts ++
            requiredAttr (reqL.contains (.str kv.1)) ++ ">") :: rest)
        pl blocks := by
  cases fuel with
  | zero => cases h
  | succ f =>
    simp only [schemaToExpandableContent, hres, Doc.truthy, Doc.jsGet, htype,
      hprops, hreq, Doc.isObjLike, requiredListOf, jsEntries] at h
    simp only [not_true, if_false, Bool.and_self, if_true] at h
    cases hrp : renderProps f spec reqL pl indent with
    | none => rw [hrp] at h; cases h
    | some lines =>
      rw [hrp] at h
      simp at h
      obtain ⟨blocks, rfl, hfa⟩ := renderProps_blocks pl f spec reqL indent lines hrp
      exact ⟨blocks.join, blocks, h.symm, rfl, hfa⟩

set_option maxRecDepth 10000 in
/-- Claim C6 witness: properties `a`, `b`, `c` with `required: [a, c]`
render as three blocks in declaration order, with `a` and `c` carrying
the ` required` attribute and `b` not. -/
theorem C6_witness :
    (resolveSchema .null (.obj [("type", .str "object"),
      ("properties", .obj [("a", .obj [("type", .str "string")]),
        ("b", .obj [("type", .str "string")]),
        ("c", .obj [("type", .str "number")])]),
      ("required", .arr [.str "a", .str "c"])]) =
      .obj [("type", .str "object"),
        ("properties", .obj [("a", .obj [("type", .str "string")]),
          ("b", .obj [("type", .str "string")]),
          ("c", .obj [("type", .str "number")])]),
        ("required", .arr [.str "a", .str "c"])]) ∧
    (∃ (lines : List String) (blocks : List (List String)),
      ("<ResponseField name=\"a\" type=\"string\" required>\n  \n</ResponseField>\n" ++
       "<ResponseField name=\"b\" type=\"string\">\n  \n</ResponseField>\n" ++
       "<ResponseField name=\"c\" type=\"number\" required>\n  \n</ResponseField>") =
        joinNl lines ∧ lines = blocks.join ∧
      List.Forall₂ (fun (kv : String × Doc) (block : List String) =>
        ∃ ts rest, block =
          ("" ++ "<ResponseField name=\"" ++ kv.1 ++ "\"" ++ typeAttr ts ++
            requiredAttr ([Doc.str "a", Doc.str "c"].contains (.str kv.1)) ++ ">") :: rest)
        [("a", Doc.obj [("type", .str "string")]),
         ("b", Doc.obj [("type", .str "string")]),
         ("c", Doc.obj [("type", .str "number")])] blocks) :=
  ⟨by decide,
    C6_property_order_required 10 .null
      (.obj [("type", .str "object"),
        ("properties", .obj [("a", .obj [("type", .str "string")]),
          ("b", .obj [("type", .str "string")]),
          ("c", .obj [("type", .str "number")])]),
        ("required", .arr [.str "a", .str "c"])])
      [("type", .str "object"),
        ("properties", .obj [("a", .obj [("type", .str "string")]),
          ("b", .obj [("type", .str "string")]),
          ("c", .obj [("type", .str "number")])]),
        ("required", .arr [.str "a", .str "c"])]
      [("a", .obj [("type", .str "string")]),
       ("b", .obj [("type", .str "string")]),
       ("c", .obj [("type", .str "number")])]
      [.str "a", .str "c"] "S" ""
      ("<ResponseField name=\"a\" type=\"string\" required>\n  \n</ResponseField>\n" ++
       "<ResponseField name=\"b\" type=\"string\">\n  \n</ResponseField>\n" ++
       "<ResponseField name=\"c\" type=\"number\" required>\n  \n</ResponseField>")
      (by decide) (by decide) (by decide) (by decide) (by decide)⟩

/-!
### Claim C4: Filter idempotence
-/

theorem filter_notDep_id (l : List (String × Doc))
    (h : lookupKey l "deprecated" = none) : l.filter notDeprecatedKey = l := by
  induction l with
  | nil => rfl
  | cons kv t ih =>
    cases kv with
    | mk k v =>
      by_cases hk : k = "deprecated"
      · subst hk
        simp [lookupKey] at h
      · simp only [lookupKey, if_neg hk] at h
        rw [List.filter_cons, if_pos (by simpa [notDeprecatedKey] using hk)]
        rw [ih h]

theorem deleteDeprecated_id (v : Doc) (h : topNoDep v = true) :
    deleteDeprecated v = v := by
  cases v with
  | obj qs =>
    simp only [topNoDep, Option.isNone_iff_eq_none] at h
    simp only [deleteDeprecated, filter_notDep_id qs h]
  | null => rfl
  | bool b => rfl
  | num n => rfl
  | str s => rfl
  | arr l => rfl

theorem isRef_mono (v : Doc) (ns ns' : List String)
    (hsub : ∀ n, ns'.contains n = true → ns.contains n = true)
    (h : isRefToDeprecatedSchema v ns = false) :
    isRefToDeprecatedSchema v ns' = false := by
  cases v with
  | obj ps =>
    cases hout : isRefToDeprecatedSchema (.obj ps) ns' with
    | false => rfl
    | true =>
      exfalso
      obtain ⟨_, hc⟩ := isRef_obj_elim ps ns' hout
      rcases hc with ⟨r, n, h1, h2, h3⟩ | ⟨items, r, n, ht, hi, hobj, href, htr, h2, h3⟩
      · have hcn := hsub n h3
        have hnsne : ns.isEmpty = false := by
          cases ns with
          | nil => simp [List.contains] at hcn
          | cons a t => rfl
        rw [isRef_obj_intro_direct ps ns r n hnsne h1 h2 hcn] at h
        cases h
      · have hcn := hsub n h3
        have hnsne : ns.isEmpty = false := by
          cases ns with
          | nil => simp [List.contains] at hcn
          | cons a t => rfl
        rw [isRef_obj_intro_items ps ns items r n hnsne ht hi hobj href htr h2 hcn] at h
        cases h
  | null => rfl
  | bool b => rfl
  | num n => rfl
  | str s => rfl
  | arr l => rfl

theorem noBadPair_mono (v : Doc) :
    ∀ ns ns', (∀ n, ns'.contains n = true → ns.contains n = true) →
      noBadPair ns v = true → noBadPair ns' v = true := by
  induction v using Doc.inductionOn with
  | hnull => intro ns ns' _ _; rfl
  | hbool b => intro ns ns' _ _; rfl
  | hnum n => intro ns ns' _ _; rfl
  | hstr s => intro ns ns' _ _; rfl
  | harr l ih =>
    intro ns ns' hsub h
    simp only [noBadPair] at h ⊢
    induction l with
    | nil => rfl
    | cons v t iht =>
      simp only [noBadPairList, Bool.and_eq_true] at h ⊢
      exact ⟨ih v (by simp) ns ns' hsub h.1,
        iht (fun x hx => ih x (List.mem_cons_of_mem _ hx)) h.2⟩
  | hobj ps ih =>
    intro ns ns' hsub h
    simp only [noBadPair] at h ⊢
    induction ps with
    | nil => rfl
    | cons kv t iht =>
      cases kv with
      | mk k v =>
        simp only [noBadPairPairs, Bool.and_eq_true, Bool.not_eq_true'] at h ⊢
        exact ⟨⟨isRef_mono v ns ns' hsub h.1.1, ih (k, v) (by simp) ns ns' hsub h.1.2⟩,
          iht (fun x hx => ih x (List.mem_cons_of_mem _ hx)) h.2⟩

theorem strip_fixpoint (v : Doc) :
    ∀ ns, pairValueNoDep v = true → noBadPair ns v = true →
      stripDeprecated v ns = v := by
  induction v using Doc.inductionOn with
  | hnull => intro ns _ _; rfl
  | hbool b => intro ns _ _; rfl
  | hnum n => intro ns _ _; rfl
  | hstr s => intro ns _ _; rfl
  | harr l ih =>
    intro ns hp hb
    simp only [pairValueNoDep] at hp
    simp only [noBadPair] at hb
    have hl : stripList l ns = l := by
      induction l with
      | nil => rfl
      | cons v t iht =>
        simp only [pairValueNoDepList, Bool.and_eq_true] at hp
        simp only [noBadPairList, Bool.and_eq_true] at hb
        simp only [stripList]
        rw [ih v (by simp) ns hp.1 hb.1,
          iht (fun x hx => ih x (List.mem_cons_of_mem _ hx)) hp.2 hb.2]
    simp only [stripDeprecated, hl]
  | hobj ps ih =>
    intro ns hp hb
    simp only [pairValueNoDep] at hp
    simp only [noBadPair] at hb
    have hps : stripPairs ps ns = ps := by
      induction ps with
      | nil => rfl
      | cons kv t iht =>
        cases kv with
        | mk k v =>
          simp only [pairValueNoDepPairs, Bool.and_eq_true] at hp
          simp only [noBadPairPairs, Bool.and_eq_true, Bool.not_eq_true'] at hb
          simp only [stripPairs]
          have hnotdep :
              ¬ (v.isMapping = true ∧ v.jsGet "deprecated" = some (.bool true)) := by
            rintro ⟨hm, hd⟩
            cases v with
            | obj qs =>
              simp only [topNoDep, Option.isNone_iff_eq_none] at hp
              simp only [Doc.jsGet] at hd
              rw [hp.1.1] at hd
              cases hd
            | null => cases hm
            | bool b2 => cases hm
            | num n2 => cases hm
            | str s2 => cases hm
            | arr l2 => cases hm
          rw [if_neg hnotdep, if_neg (by rw [hb.1.1]; exact Bool.false_ne_true)]
          rw [show stripDeprecated v ns = v from
            ih (k, v) (by simp) ns hp.1.2 hb.1.2]
          rw [deleteDeprecated_id v hp.1.1,
            iht (fun x hx => ih x (List.mem_cons_of_mem _ hx)) hp.2 hb.2]
    simp only [stripDeprecated, hps]

theorem stamp_full_restamp (op xps mps : List (String × Doc)) :
    stampOp (setKey op "x-mint" (.obj (setKey xps "metadata"
      (.obj (setKey mps "mode" (.str "wide")))))) =
      some (setKey op "x-mint" (.obj (setKey xps "metadata"
        (.obj (setKey mps "mode" (.str "wide")))))) := by
  unfold stampOp
  rw [lookupKey_setKey_self]
  dsimp only
  unfold stampMetadata
  rw [lookupKey_setKey_self]
  dsimp only
  rw [setKey_setKey, setKey_setKey, setKey_setKey]

theorem stampOp_idem (op op' : List (String × Doc)) (h : stampOp op = some op') :
    stampOp op' = some op' := by
  have hfresh : ∀ o : List (String × Doc), stampOp (setKey o "x-mint"
      (.obj [("metadata", .obj [("mode", .str "wide")])])) = some (setKey o "x-mint"
      (.obj [("metadata", .obj [("mode", .str "wide")])])) := fun o => by
    simpa [setKey] using stamp_full_restamp o [] []
  unfold stampOp at h
  cases hxm : lookupKey op "x-mint" with
  | none =>
    rw [hxm] at h
    simp only [stampMetadata, lookupKey, setKey, setKey_setKey] at h
    cases h
    exact hfresh op
  | some xv =>
    rw [hxm] at h
    cases xv with
    | obj xps =>
      dsimp only at h
      unfold stampMetadata at h
      cases hmd : lookupKey xps "metadata" with
      | none =>
        rw [hmd] at h
        cases h
        simpa [setKey] using stamp_full_restamp op xps []
      | some mv =>
        rw [hmd] at h
        cases mv with
        | obj mps =>
          cases h
          exact stamp_full_restamp op xps mps
        | arr l =>
          cases h
          unfold stampOp
          rw [hxm]
          dsimp only
          unfold stampMetadata
          rw [hmd]
        | null =>
          simp only [Doc.truthy] at h
          cases h
          simpa [setKey] using stamp_full_restamp op xps []
        | bool b =>
          cases hb : b with
          | true =>
            rw [hb] at h
            simp only [Doc.truthy] at h
            cases h
            unfold stampOp
            rw [hxm]
            dsimp only
            unfold stampMetadata
            rw [hb] at hmd
            rw [hmd]
            simp [Doc.truthy]
          | false =>
            rw [hb] at h
            simp only [Doc.truthy] at h
            cases h
            simpa [setKey] using stamp_full_restamp op xps []
        | num n =>
          by_cases hn : (n : Int) = 0
          · subst hn
            simp only [Doc.truthy] at h
            simp at h
            subst h
            simpa [setKey] using stamp_full_restamp op xps []
          · simp only [Doc.truthy] at h
            rw [if_pos (by simpa using hn)] at h
            cases h
            unfold stampOp
            rw [hxm]
            dsimp only
            unfold stampMetadata
            rw [hmd]
            simp only [Doc.truthy]
            rw [if_pos (by simpa using hn)]
        | str s =>
          by_cases hs : s = ""
          · subst hs
            simp only [Doc.truthy] at h
            simp at h
            subst h
            simpa [setKey] using stamp_full_restamp op xps []
          · simp only [Doc.truthy] at h
            rw [if_pos (by simpa using hs)] at h
            cases h
            unfold stampOp
            rw [hxm]
            dsimp only
            unfold stampMetadata
            rw [hmd]
            simp only [Doc.truthy]
            rw [if_pos (by simpa using hs)]
    | arr l =>
      cases h
      unfold stampOp
      rw [hxm]
    | null =>
      simp only [Doc.truthy] at h
      simp only [stampMetadata, lookupKey, setKey, setKey_setKey] at h
      cases h
      exact hfresh op
    | bool b =>
      cases hb : b with
      | true =>
        rw [hb] at h
        simp only [Doc.truthy] at h
        cases h
      | false =>
        rw [hb] at h
        simp only [Doc.truthy] at h
        simp only [stampMetadata, lookupKey, setKey, setKey_setKey] at h
        cases h
        exact hfresh op
    | num n =>
      by_cases hn : (n : Int) = 0
      · subst hn
        simp only [Doc.truthy] at h
        simp at h
        simp only [stampMetadata, lookupKey, setKey, setKey_setKey] at h
        cases h
        exact hfresh op
      · simp only [Doc.truthy] at h
        rw [if_pos (by simpa using hn)] at h
        cases h
    | str s =>
      by_cases hs : s = ""
      · subst hs
        simp only [Doc.truthy] at h
        simp at h
        simp only [stampMetadata, lookupKey, setKey, setKey_setKey] at h
        cases h
        exact hfresh op
      · simp only [Doc.truthy] at h
        rw [if_pos (by simpa using hs)] at h
        cases h

theorem stampOpValue_idem (k : String) (v v' : Doc)
    (h : stampOpValue k v = some v') : stampOpValue k v' = some v' := by
  unfold stampOpValue at h ⊢
  by_cases hk : OPERATION_METHODS.contains k = true
  · rw [if_pos hk] at h ⊢
    cases v with
    | obj ops =>
      dsimp only at h
      cases hso : stampOp ops with
      | none => rw [hso] at h; simp at h
      | some ops' =>
        rw [hso] at h
        simp at h
        subst h
        simp [stampOp_idem ops ops' hso]
    | null => cases h; rfl
    | bool b => cases h; rfl
    | num n => cases h; rfl
    | str s => cases h; rfl
    | arr l => cases h; rfl
  · rw [if_neg hk] at h ⊢

theorem stampOpsInPathItem_idem (ps out : List (String × Doc))
    (h : stampOpsInPathItem ps = some out) : stampOpsInPathItem out = some out := by
  induction ps generalizing out with
  | nil => simp only [stampOpsInPathItem] at h; cases h; rfl
  | cons kv t ih =>
    cases kv with
    | mk k v =>
      simp only [stampOpsInPathItem] at h
      cases hv : stampOpValue k v with
      | none => rw [hv] at h; cases h
      | some v' =>
        rw [hv] at h
        cases ht : stampOpsInPathItem t with
        | none => rw [ht] at h; cases h
        | some t' =>
          rw [ht] at h
          cases h
          simp only [stampOpsInPathItem, stampOpValue_idem k v v' hv, ih t' ht]
  
theorem stampPathItem_idem (v v' : Doc) (h : stampPathItem v = some v') :
    stampPathItem v' = some v' := by
  cases v with
  | obj ps =>
    simp only [stampPathItem] at h
    cases hso : stampOpsInPathItem ps with
    | none => rw [hso] at h; simp at h
    | some ps' =>
      rw [hso] at h
      simp at h
      subst h
      simp [stampPathItem, stampOpsInPathItem_idem ps ps' hso]
  | null => cases h; rfl
  | bool b => cases h; rfl
  | num n => cases h; rfl
  | str s => cases h; rfl
  | arr l => cases h; rfl

theorem stampPathValues_idem (pls out : List (String × Doc))
    (h : stampPathValues pls = some out) : stampPathValues out = some out := by
  induction pls generalizing out with
  | nil => simp only [stampPathValues] at h; cases h; rfl
  | cons kv t ih =>
    cases kv with
    | mk k v =>
      simp only [stampPathValues] at h
      cases hv : stampPathItem v with
      | none => rw [hv] at h; cases h
      | some v' =>
        rw [hv] at h
        cases ht : stampPathValues t with
        | none => rw [ht] at h; cases h
        | some t' =>
          rw [ht] at h
          cases h
          simp only [stampPathValues, stampPathItem_idem v v' hv, ih t' ht]

theorem stampPathElems_idem (l out : List Doc)
    (h : stampPathElems l = some out) : stampPathElems out = some out := by
  induction l generalizing out with
  | nil => simp only [stampPathElems] at h; cases h; rfl
  | cons v t ih =>
    simp only [stampPathElems] at h
    cases hv : stampPathItem v with
    | none => rw [hv] at h; cases h
    | some v' =>
      rw [hv] at h
      cases ht : stampPathElems t with
      | none => rw [ht] at h; cases h
      | some t' =>
        rw [ht] at h
        cases h
        simp only [stampPathElems, stampPathItem_idem v v' hv, ih t' ht]

theorem ensureWideMode_idem (d out : Doc) (h : ensureWideMode d = some out) :
    ensureWideMode out = some out := by
  cases d with
  | null => cases h
  | obj ps =>
    simp only [ensureWideMode] at h
    cases hps : lookupKey ps "paths" with
    | none =>
      rw [hps] at h
      cases h
      simp [ensureWideMode, hps]
    | some pv =>
      rw [hps] at h
      cases pv with
      | obj pls =>
        dsimp only at h
        cases hsv : stampPathValues pls with
        | none => rw [hsv] at h; simp at h
        | some pls' =>
          rw [hsv] at h
          simp at h
          subst h
          simp only [ensureWideMode, lookupKey_setKey_self,
            stampPathValues_idem pls pls' hsv, Option.map_some', setKey_setKey]
      | arr l =>
        dsimp only at h
        cases hsv : stampPathElems l with
        | none => rw [hsv] at h; simp at h
        | some l' =>
          rw [hsv] at h
          simp at h
          subst h
          simp only [ensureWideMode, lookupKey_setKey_self,
            stampPathElems_idem l l' hsv, Option.map_some', setKey_setKey]
      | null => cases h; simp [ensureWideMode, hps]
      | bool b => cases h; simp [ensureWideMode, hps]
      | num n => cases h; simp [ensureWideMode, hps]
      | str s => cases h; simp [ensureWideMode, hps]
  | bool b => cases h; rfl
  | num n => cases h; rfl
  | str s => cases h; rfl
  | arr l => cases h; rfl

theorem build_ensure (d out : Doc) (h : ensureWideMode d = some out) :
    buildDeprecatedSchemaNames out = buildDeprecatedSchemaNames d := by
  cases d with
  | null => cases h
  | obj ps =>
    simp only [ensureWideMode] at h
    cases hps : lookupKey ps "paths" with
    | none => rw [hps] at h; cases h; rfl
    | some pv =>
      rw [hps] at h
      have hcomp : ∀ X, buildDeprecatedSchemaNames (.obj (setKey ps "paths" X)) =
          buildDeprecatedSchemaNames (.obj ps) := by
        intro X
        simp only [buildDeprecatedSchemaNames, Doc.jsGet,
          lookupKey_setKey_ne ps "paths" X "components" (by decide)]
      cases pv with
      | obj pls =>
        dsimp only at h
        cases hsv : stampPathValues pls with
        | none => rw [hsv] at h; simp at h
        | some pls' =>
          rw [hsv] at h
          simp at h
          subst h
          exact hcomp _
      | arr l =>
        dsimp only at h
        cases hsv : stampPathElems l with
        | none => rw [hsv] at h; simp at h
        | some l' =>
          rw [hsv] at h
          simp at h
          subst h
          exact hcomp _
      | null => cases h; rfl
      | bool b => cases h; rfl
      | num n => cases h; rfl
      | str s => cases h; rfl
  | bool b => cases h; rfl
  | num n => cases h; rfl
  | str s => cases h; rfl
  | arr l => cases h; rfl

theorem stripList_eq_map (l : List Doc) (ns : List String) :
    stripList l ns = l.map (fun v => stripDeprecated v ns) := by
  induction l with
  | nil => rfl
  | cons v t ih => simp only [stripList, List.map_cons, ih]

theorem mem_stripPairs (ps : List (String × Doc)) (ns : List String)
    (kv' : String × Doc) (h : kv' ∈ stripPairs ps ns) :
    ∃ v0 : Doc, kv'.2 = deleteDeprecated (stripDeprecated v0 ns) := by
  induction ps with
  | nil => cases h
  | cons kv t ih =>
    cases kv with
    | mk k v =>
      simp only [stripPairs] at h
      by_cases h1 : v.isMapping = true ∧ v.jsGet "deprecated" = some (.bool true)
      · rw [if_pos h1] at h
        exact ih h
      · rw [if_neg h1] at h
        by_cases h2 : isRefToDeprecatedSchema v ns = true
        · rw [if_pos h2] at h
          exact ih h
        · rw [if_neg h2] at h
          rcases List.mem_cons.mp h with rfl | hmem
          · exact ⟨v, rfl⟩
          · exact ih hmem

theorem stripped_not_depTrue (v0 : Doc) (ns : List String) :
    ¬ ((deleteDeprecated (stripDeprecated v0 ns)).isObjLike = true ∧
       (deleteDeprecated (stripDeprecated v0 ns)).jsGet "deprecated" =
         some (.bool true)) := by
  rintro ⟨hobj, hdep⟩
  cases v0 with
  | obj qs =>
    simp only [stripDeprecated, deleteDeprecated, Doc.jsGet,
      lookupKey_filter_deprecated] at hdep
    cases hdep
  | arr l =>
    simp only [stripDeprecated, deleteDeprecated, Doc.jsGet] at hdep
    cases hdep
  | null => cases hobj
  | bool b => cases hobj
  | num n => cases hobj
  | str s => cases hobj

theorem stripped_bool_true (w : Doc) (ns : List String)
    (h : deleteDeprecated (stripDeprecated w ns) = .bool true) :
    w = .bool true := by
  cases w with
  | bool b => cases h; rfl
  | null => cases h
  | num n => cases h
  | str s => cases h
  | arr l => simp only [stripDeprecated, deleteDeprecated] at h; cases h
  | obj qs => simp only [stripDeprecated, deleteDeprecated] at h; cases h

theorem contains_str_iff (l : List String) (n : String) :
    l.contains n = true ↔ n ∈ l := by
  induction l with
  | nil => simp [List.contains]
  | cons a t ih =>
    simp only [List.contains] at ih ⊢
    rw [List.elem_cons]
    by_cases hna : n = a
    · subst hna
      simp [List.mem_cons]
    · have hb : (n == a) = false := by simp [hna]
      rw [hb]
      simp only [List.mem_cons]
      constructor
      · intro h
        exact Or.inr (ih.mp h)
      · intro h
        rcases h with h | h
        · exact absurd h hna
        · exact ih.mpr h

theorem mem_of_mem_enumFrom (l : List Doc) :
    ∀ (j i : Nat) (v : Doc), (i, v) ∈ l.enumFrom j → v ∈ l := by
  induction l with
  | nil => intro j i v h; cases h
  | cons a t ih =>
    intro j i v h
    rw [List.enumFrom] at h
    rcases List.mem_cons.mp h with heq | hmem
    · cases heq
      exact List.mem_cons_self _ _
    · exact List.mem_cons_of_mem _ (ih (j + 1) i v hmem)

theorem enumFrom_map_strip (l : List Doc) (ns : List String) :
    ∀ j : Nat, (l.map (fun v => stripDeprecated v ns)).enumFrom j =
      (l.enumFrom j).map (fun iv => (iv.1, stripDeprecated iv.2 ns)) := by
  induction l with
  | nil => intro j; rfl
  | cons a t ih =>
    intro j
    simp only [List.map_cons, List.enumFrom, ih (j + 1)]

theorem jsGet_obj (ps : List (String × Doc)) (k : String) :
    (Doc.obj ps).jsGet k = lookupKey ps k := rfl

theorem jsGet_arr (l : List Doc) (k : String) : (Doc.arr l).jsGet k = none := rfl

theorem isObjLike_obj (ps : List (String × Doc)) :
    (Doc.obj ps).isObjLike = true := rfl

theorem isObjLike_arr (l : List Doc) : (Doc.arr l).isObjLike = true := rfl

theorem build_strip_subset (d : Doc) (hwf : d.WF = true) (ns : List String)
    (n : String)
    (h : (buildDeprecatedSchemaNames (stripDeprecated d ns)).contains n = true) :
    (buildDeprecatedSchemaNames d).contains n = true := by
  rw [contains_str_iff] at h ⊢
  cases d with
  | null => exact h
  | bool b => exact h
  | num m => exact h
  | str s => exact h
  | arr l =>
    simp only [stripDeprecated, buildDeprecatedSchemaNames, jsGet_arr,
      Doc.jsGetOpt] at h
    cases h
  | obj ps =>
    have hnd : nodupKeys ps = true ∧ Doc.WFPairs ps = true := by
      simpa [Doc.WF, Bool.and_eq_true] using hwf
    simp only [stripDeprecated, buildDeprecatedSchemaNames, jsGet_obj] at h
    simp only [buildDeprecatedSchemaNames, jsGet_obj]
    cases hc' : lookupKey (stripPairs ps ns) "components" with
    | none =>
      rw [hc'] at h
      simp only [Doc.jsGetOpt] at h
      cases h
    | some c' =>
      rw [hc'] at h
      obtain ⟨c, hc, rfl⟩ := stripPairs_lookup ps ns "components" c' hnd.1 hc'
      rw [hc]
      cases c with
      | null => simp [stripDeprecated, deleteDeprecated, Doc.jsGetOpt, Doc.jsGet] at h
      | bool b => simp [stripDeprecated, deleteDeprecated, Doc.jsGetOpt, Doc.jsGet] at h
      | num m => simp [stripDeprecated, deleteDeprecated, Doc.jsGetOpt, Doc.jsGet] at h
      | str s => simp [stripDeprecated, deleteDeprecated, Doc.jsGetOpt, Doc.jsGet] at h
      | arr l2 => simp [stripDeprecated, deleteDeprecated, Doc.jsGetOpt, jsGet_arr] at h
      | obj qs =>
        have hcwf := WFPairs_lookup ps "components" _ hnd.2 hc
        have hq : nodupKeys qs = true ∧ Doc.WFPairs qs = true := by
          simpa [Doc.WF, Bool.and_eq_true] using hcwf
        simp only [stripDeprecated, deleteDeprecated, Doc.jsGetOpt, jsGet_obj] at h
        rw [lookupKey_filter_ne _ _ (by decide)] at h
        cases hs' : lookupKey (stripPairs qs ns) "schemas" with
        | none => rw [hs'] at h; cases h
        | some s' =>
          rw [hs'] at h
          obtain ⟨s0, hs0, rfl⟩ := stripPairs_lookup qs ns "schemas" s' hq.1 hs'
          have hswf := WFPairs_lookup qs "schemas" _ hq.2 hs0
          simp only [Doc.jsGetOpt, jsGet_obj, hs0]
          cases s0 with
          | null => simp [stripDeprecated, deleteDeprecated, Doc.isObjLike] at h
          | bool b => simp [stripDeprecated, deleteDeprecated, Doc.isObjLike] at h
          | num m => simp [stripDeprecated, deleteDeprecated, Doc.isObjLike] at h
          | str s => simp [stripDeprecated, deleteDeprecated, Doc.isObjLike] at h
          | obj rs =>
            exfalso
            simp only [stripDeprecated, deleteDeprecated, isObjLike_obj,
              jsEntries] at h
            rw [if_pos trivial] at h
            obtain ⟨kv', hkv', hf⟩ := List.mem_filterMap.mp h
            have hmem := List.mem_of_mem_filter hkv'
            obtain ⟨v0, hv0⟩ := mem_stripPairs rs ns kv' hmem
            split at hf
            · rename_i hcond
              rw [hv0] at hcond
              exact stripped_not_depTrue v0 ns hcond
            · cases hf
          | arr l0 =>
            simp only [stripDeprecated, deleteDeprecated, isObjLike_arr,
              jsEntries] at h ⊢
            rw [if_pos trivial] at h
            rw [if_pos trivial]
            have hl0wf : Doc.WFList l0 = true := by
              simpa [Doc.WF] using hswf
            rw [stripList_eq_map] at h
            rw [show (l0.map (fun v => stripDeprecated v ns)).enum =
              (l0.enum).map (fun iv => (iv.1, stripDeprecated iv.2 ns)) from
              enumFrom_map_strip l0 ns 0] at h
            rw [List.map_map] at h
            obtain ⟨x, hx, hf⟩ := List.mem_filterMap.mp h
            obtain ⟨iv, hiv, rfl⟩ := List.mem_map.mp hx
            cases iv with
            | mk i v =>
              simp only [Function.comp] at hf
              split at hf
              · rename_i hcond
                cases hf
                cases v with
                | obj qs2 =>
                  have hvmem : (Doc.obj qs2) ∈ l0 :=
                    mem_of_mem_enumFrom l0 0 i _ hiv
                  have hvwf := WFList_mem l0 _ hl0wf hvmem
                  have hq2 : nodupKeys qs2 = true := by
                    simp only [Doc.WF, Bool.and_eq_true] at hvwf
                    exact hvwf.1
                  obtain ⟨hcond1, hcond2⟩ := hcond
                  simp only [stripDeprecated, jsGet_obj] at hcond2
                  obtain ⟨w, hw, hweq⟩ :=
                    stripPairs_lookup qs2 ns "deprecated" _ hq2 hcond2
                  have hwb : w = .bool true := stripped_bool_true w ns hweq.symm
                  subst hwb
                  refine List.mem_filterMap.mpr
                    ⟨((fun iv : Nat × Doc => (toString iv.1, iv.2)) (i, Doc.obj qs2)),
                      List.mem_map.mpr ⟨(i, .obj qs2), hiv, rfl⟩, ?_⟩
                  rw [if_pos ⟨rfl, hw⟩]
                | null => cases hcond.1
                | bool b => cases hcond.1
                | num m2 => cases hcond.1
                | str s2 => cases hcond.1
                | arr l2 =>
                  obtain ⟨hcond1, hcond2⟩ := hcond
                  simp only [stripDeprecated, jsGet_arr] at hcond2
                  cases hcond2
              · cases hf

/-- Claim C4 (amended): for a well-formed input, running the Filter on
its own output returns that output unchanged — no further key/value
pairs are removed, the deprecated-schema set recomputed from the
output only shrinks, and re-stamping every operation is the identity.
(The original claim additionally asserted every operation's
`x-mint.metadata.mode` is already `"wide"` in the output, which the
counterexample refutes: a truthy-scalar `metadata` is silently left
unstamped, though the Filter is still idempotent there.) -/
theorem C4_filter_idempotent (d out : Doc) (hwf : d.WF = true)
    (h : filterDoc d = some out) : filterDoc out = some out := by
  have hpv : pairValueNoDep out = true :=
    ensureWideMode_pairValueNoDep _ out (strip_pairValueNoDep d _) h
  have hnb : noBadPair (buildDeprecatedSchemaNames d) out = true :=
    ensure_noBadPair _ _ out (strip_noBadPair d _ hwf) h
  have hbe : buildDeprecatedSchemaNames out =
      buildDeprecatedSchemaNames
        (stripDeprecated d (buildDeprecatedSchemaNames d)) :=
    build_ensure _ out h
  have hsub : ∀ m, (buildDeprecatedSchemaNames out).contains m = true →
      (buildDeprecatedSchemaNames d).contains m = true := by
    intro m hm
    rw [hbe] at hm
    exact build_strip_subset d hwf _ m hm
  have hnb' : noBadPair (buildDeprecatedSchemaNames out) out = true :=
    noBadPair_mono out _ _ hsub hnb
  have hfix : stripDeprecated out (buildDeprecatedSchemaNames out) = out :=
    strip_fixpoint out _ hpv hnb'
  unfold filterDoc
  rw [hfix]
  exact ensureWideMode_idem _ out h

set_option maxRecDepth 10000 in
/-- Claim C4 witness: a concrete spec with a deprecated schema, a
reference to it, and a path operation; the Filter's output passes
through a second Filter run unchanged. -/
theorem C4_witness :
    ((Doc.obj [("components", .obj [("schemas", .obj [
        ("Old", .obj [("deprecated", .bool true)]),
        ("New", .obj [("type", .str "object"), ("properties", .obj [
          ("a", .obj [("$ref", .str "#/components/schemas/Old")]),
          ("b", .obj [("type", .str "string")])])])])]),
      ("paths", .obj [("/a", .obj [("get",
        .obj [("summary", .str "s")])])])]).WF = true) ∧
    filterDoc (.obj [("components", .obj [("schemas", .obj [
        ("New", .obj [("type", .str "object"), ("properties", .obj [
          ("b", .obj [("type", .str "string")])])])])]),
      ("paths", .obj [("/a", .obj [("get", .obj [("summary", .str "s"),
        ("x-mint", .obj [("metadata", .obj [("mode", .str "wide")])])])])])]) =
      some (.obj [("components", .obj [("schemas", .obj [
        ("New", .obj [("type", .str "object"), ("properties", .obj [
          ("b", .obj [("type", .str "string")])])])])]),
      ("paths", .obj [("/a", .obj [("get", .obj [("summary", .str "s"),
        ("x-mint", .obj [("metadata", .obj [("mode", .str "wide")])])])])])]) :=
  ⟨by decide,
    C4_filter_idempotent
      (.obj [("components", .obj [("schemas", .obj [
        ("Old", .obj [("deprecated", .bool true)]),
        ("New", .obj [("type", .str "object"), ("properties", .obj [
          ("a", .obj [("$ref", .str "#/components/schemas/Old")]),
          ("b", .obj [("type", .str "string")])])])])]),
      ("paths", .obj [("/a", .obj [("get", .obj [("summary", .str "s")])])])])
      (.obj [("components", .obj [("schemas", .obj [
        ("New", .obj [("type", .str "object"), ("properties", .obj [
          ("b", .obj [("type", .str "string")])])])])]),
      ("paths", .obj [("/a", .obj [("get", .obj [("summary", .str "s"),
        ("x-mint", .obj [("metadata", .obj [("mode", .str "wide")])])])])])])
      (by decide) (by decide)⟩
